import Mathlib

/-!
Verification of the pop_dupe core algorithms.

Shallow embedding of the repository's core functions, translated from the
Python sources in `src/app/`:

* `chunker.py`   — fixed-window text chunker (`chunk_text`)
* `ingest.py`    — VTT subtitle parsing (`_vtt_to_segments`), temporal segment
  merging (`_merge_segments`), and the three-tier transcript acquisition
  cascade of `ingest_youtube`
* `vector_store.py` — cosine similarity, MMR reranking (`_mmr_rerank`) and
  the `query` wrapper
* `storage.py`   — the flat-file store operations `delete_board` and
  `delete_item_and_chunks`
* `main.py`      — the `/chat` endpoint's single-item shortcut and
  group-scoped context assembly

Python strings are modelled as `List Char`; Python floats as `ℚ` (the
claims under study involve only exact decimal arithmetic); external
collaborators (embedding service, vector index, speech-to-text client,
`html.unescape`, `math.sqrt`) are passed in as function parameters.
Mutable loops are modelled with explicit fuel so that every definition
reduces in the kernel; the fuel supplied at each call site is proved (or
chosen) sufficient for all terminating runs of the Python code.
-/

set_option autoImplicit false

namespace PopDupe

/-- Characters treated as whitespace by Python's `str.strip()` / `\s`
(ASCII subset; the sources only ever strip ASCII whitespace). -/
def isPyWs (c : Char) : Bool :=
  c = ' ' || c = '\t' || c = '\n' || c = '\r' || c = '\x0b' || c = '\x0c'

/-- Python `str.strip()`: drop leading and trailing whitespace. -/
def pyStrip (s : List Char) : List Char :=
  ((s.dropWhile isPyWs).reverse.dropWhile isPyWs).reverse

/-- Python `" ".join(l)`: join a list of strings with single spaces. -/
def sjoin : List (List Char) → List Char
  | [] => []
  | [t] => t
  | t :: ts => t ++ ' ' :: sjoin ts

/-! ## `chunker.py` — `chunk_text`

```python
def chunk_text(text, max_chars=1200, overlap=150):
    text = text.strip()
    if not text:
        return []
    chunks = []
    start = 0
    n = len(text)
    while start < n:
        end = min(start + max_chars, n)
        chunk = text[start:end]
        chunks.append(chunk)
        if end == n:
            break
        start = max(0, end - overlap)
    return chunks
```

The `while` loop is modelled with fuel; `chunk_text` supplies
`text.length + 1` fuel, which suffices whenever `overlap < max_chars`
(each iteration advances `start` by `max_chars - overlap ≥ 1`).  When
`overlap ≥ max_chars` the Python loop does not terminate, and the model
returns whatever was accumulated when the fuel runs out.  Note
`max(0, end - overlap)` is truncated `Nat` subtraction. -/

def chunkLoop (t : List Char) (max_chars overlap : Nat) : Nat → Nat → List (List Char)
  | _, 0 => []
  | start, fuel + 1 =>
    if start < t.length then
      let e := min (start + max_chars) t.length
      let chunk := (t.drop start).take (e - start)
      if e = t.length then [chunk]
      else chunk :: chunkLoop t max_chars overlap (e - overlap) fuel
    else []

def chunk_text (text : List Char) (max_chars overlap : Nat) :
    List (List Char) :=
  if pyStrip text = [] then []
  else chunkLoop (pyStrip text) max_chars overlap 0 ((pyStrip text).length + 1)

/-- The slice `text[s : s+len]` of a string, used to speak about window
offsets. -/
def slice (t : List Char) (s len : Nat) : List Char := (t.drop s).take len

/-- Deduplicate the overlap regions of a chunk list by window index: keep
the first chunk whole and drop the first `overlap` characters of every
later chunk (each window after the first starts exactly `overlap`
characters before the previous window's end). -/
def dedup (overlap : Nat) : List (List Char) → List Char
  | [] => []
  | c :: rest => c ++ (rest.map (List.drop overlap)).flatten

/-! ## `ingest.py` — `_merge_segments`

```python
def _merge_segments(segments, max_chars=600, max_gap_s=2.5, max_span_s=60.0):
    merged_texts = []
    metas = []
    if not segments:
        return merged_texts, metas
    cur_start = segments[0]["start"]
    cur_end = segments[0]["end"]
    cur_text = segments[0]["text"]
    for seg in segments[1:]:
        st, en, txt = seg["start"], seg["end"], seg["text"]
        span_ok = (en - cur_start) <= max_span_s
        gap_ok = (st - cur_end) <= max_gap_s
        chars_ok = (len(cur_text) + 1 + len(txt)) <= max_chars
        if span_ok and gap_ok and chars_ok:
            cur_end = en
            cur_text = f"{cur_text} {txt}"
        else:
            merged_texts.append(cur_text)
            metas.append({"start_s": float(cur_start), "end_s": float(cur_end)})
            cur_start, cur_end, cur_text = st, en, txt
    merged_texts.append(cur_text)
    metas.append({"start_s": float(cur_start), "end_s": float(cur_end)})
    return merged_texts, metas
```

Timestamps are modelled as `ℚ`. -/

structure Seg where
  start_s : ℚ
  end_s : ℚ
  text : List Char
deriving DecidableEq

def mergeLoop (mc : Nat) (mg ms : ℚ) :
    ℚ → ℚ → List Char → List Seg → List (List Char) × List (ℚ × ℚ)
  | cs, ce, ct, [] => ([ct], [(cs, ce)])
  | cs, ce, ct, seg :: rest =>
    if seg.end_s - cs ≤ ms ∧ seg.start_s - ce ≤ mg ∧
        ct.length + 1 + seg.text.length ≤ mc then
      mergeLoop mc mg ms cs seg.end_s (ct ++ ' ' :: seg.text) rest
    else
      let r := mergeLoop mc mg ms seg.start_s seg.end_s seg.text rest
      (ct :: r.1, (cs, ce) :: r.2)

def merge_segments (segments : List Seg) (max_chars : Nat)
    (max_gap_s max_span_s : ℚ) :
    List (List Char) × List (ℚ × ℚ) :=
  match segments with
  | [] => ([], [])
  | seg :: rest =>
    mergeLoop max_chars max_gap_s max_span_s seg.start_s seg.end_s seg.text rest

/-- Ghost-instrumented twin of `mergeLoop`: the same control flow (it
threads the very same `cs`/`ce`/`ct` state and tests the very same
condition), but it collects, for each emitted buffer, the list of source
segments merged into it instead of the joined text. -/
def mergeLoopG (mc : Nat) (mg ms : ℚ) :
    ℚ → ℚ → List Char → List Seg → List Seg → List (List Seg)
  | _, _, _, g, [] => [g]
  | cs, ce, ct, g, seg :: rest =>
    if seg.end_s - cs ≤ ms ∧ seg.start_s - ce ≤ mg ∧
        ct.length + 1 + seg.text.length ≤ mc then
      mergeLoopG mc mg ms cs seg.end_s (ct ++ ' ' :: seg.text) (g ++ [seg]) rest
    else
      g :: mergeLoopG mc mg ms seg.start_s seg.end_s seg.text [seg] rest

/-- The partition of the input segments induced by the merge: each entry
is the run of consecutive source segments merged into one emitted unit. -/
def mergeGroups (segments : List Seg) (max_chars : Nat)
    (max_gap_s max_span_s : ℚ) : List (List Seg) :=
  match segments with
  | [] => []
  | seg :: rest =>
    mergeLoopG max_chars max_gap_s max_span_s seg.start_s seg.end_s seg.text [seg] rest

def headStart (g : List Seg) : ℚ := (g.head?.map Seg.start_s).getD 0

def lastEnd (g : List Seg) : ℚ := (g.getLast?.map Seg.end_s).getD 0

/-- The spec's worked merge example: `[(0,2,"hi"),(2.1,4,"there"),(70,72,"later")]`
(texts abbreviated; only timing matters here). -/
def exSegs : List Seg :=
  [⟨0, 2, ['h', 'i']⟩, ⟨21 / 10, 4, ['t', 'h']⟩, ⟨70, 72, ['l', 'a']⟩]

/-! ## `storage.py` — `delete_board` / `delete_item_and_chunks`

```python
def delete_board(board_id):
    data = _load()
    data["boards"] = [b for b in data.get("boards", []) if b["id"] != board_id]
    data["items"] = [i for i in data.get("items", []) if i["board_id"] != board_id]
    item_ids = {c["item_id"] for c in data.get("chunks", []) if c["item_id"]}
    data["chunks"] = [c for c in data.get("chunks", []) if c.get("item_id") not in item_ids]
    _save(data)

def delete_item_and_chunks(item_id):
    data = _load()
    data["items"] = [i for i in data.get("items", []) if i.get("id") != item_id]
    data["chunks"] = [c for c in data.get("chunks", []) if c.get("item_id") != item_id]
    _save(data)
```

Note that `item_ids` is computed from **all** chunks still present in the
store (the chunk list has not been filtered yet at that point), not from
the items that were just removed. -/

structure BoardRec where
  id : String
deriving DecidableEq

structure ItemRec where
  id : String
  board_id : String
deriving DecidableEq

structure ChunkRec where
  id : String
  item_id : String
deriving DecidableEq

structure DB where
  boards : List BoardRec
  items : List ItemRec
  chunks : List ChunkRec
deriving DecidableEq

def delete_board (db : DB) (board_id : String) : DB :=
  { boards := db.boards.filter (fun b => b.id ≠ board_id)
    items := db.items.filter (fun i => i.board_id ≠ board_id)
    chunks :=
      db.chunks.filter (fun c =>
        ¬ ((db.chunks.filter (fun c' => c'.item_id ≠ "")).map ChunkRec.item_id).contains
            c.item_id) }

def delete_item_and_chunks (db : DB) (item_id : String) : DB :=
  { db with
    items := db.items.filter (fun i => i.id ≠ item_id)
    chunks := db.chunks.filter (fun c => c.item_id ≠ item_id) }

/-- A store with two boards, one item each, one chunk per item. -/
def dbEx : DB :=
  { boards := [⟨"b1"⟩, ⟨"b2"⟩]
    items := [⟨"i1", "b1"⟩, ⟨"i2", "b2"⟩]
    chunks := [⟨"c1", "i1"⟩, ⟨"c2", "i2"⟩] }

/-! ## `vector_store.py` — cosine similarity, `_mmr_rerank`, `query`

```python
def _cosine_similarity(a, b):
    dot = sum(x * y for x, y in zip(a, b))
    na = math.sqrt(sum(x * x for x in a)) or 1.0
    nb = math.sqrt(sum(y * y for y in b)) or 1.0
    return dot / (na * nb)

def _mmr_rerank(query_emb, doc_texts, doc_metas, lambda_mult=0.7, top_k=20):
    if not doc_texts:
        return []
    doc_embs = embed_texts(doc_texts)
    selected = []
    candidates = list(range(len(doc_texts)))
    q_sims = [_cos(query_emb, e) if query_emb and e else 0.0 for e in doc_embs]
    while candidates and len(selected) < min(top_k, len(doc_texts)):
        best_idx = None
        best_score = -1e9
        for idx in candidates:
            m = max((_cos(doc_embs[idx], doc_embs[j]) for j in selected), default=0.0)
            score = lambda_mult * q_sims[idx] - (1.0 - lambda_mult) * m
            if score > best_score:
                best_score = score
                best_idx = idx
        candidates.remove(best_idx)
        selected.append(best_idx)
    return [{"text": doc_texts[i], **(doc_metas[i] or {})} for i in selected]
```

`math.sqrt` (standard library) and `embed_texts` (external embedding
service) are supplied as parameters `sqrtQ` / `embedF`.  When every score
is `≤ -1e9` the Python loop would crash in `candidates.remove(None)`;
the model returns `none` there (an exception), and `some` models normal
return.  Out-of-range accesses are modelled with `getD` (they cannot occur
when `embedF` honours its same-length contract). -/

def dotQ (a b : List ℚ) : ℚ := (List.zipWith (· * ·) a b).sum

def sumSq (a : List ℚ) : ℚ := (a.map (fun x => x * x)).sum

/-- Python `x or 1.0` on a float. -/
def orOne (x : ℚ) : ℚ := if x = 0 then 1 else x

def cosine_similarity (sqrtQ : ℚ → ℚ) (a b : List ℚ) : ℚ :=
  dotQ a b / (orOne (sqrtQ (sumSq a)) * orOne (sqrtQ (sumSq b)))

/-- Python `max(l, default=d)`. -/
def maxD (l : List ℚ) (d : ℚ) : ℚ :=
  match l with
  | [] => d
  | x :: xs => xs.foldl max x

/-- The MMR objective for candidate `idx` against the current selection. -/
def mmrScore (lam : ℚ) (qsims : List ℚ) (simD : Nat → Nat → ℚ)
    (selected : List Nat) (idx : Nat) : ℚ :=
  lam * qsims.getD idx 0 - (1 - lam) * maxD (selected.map (fun j => simD idx j)) 0

/-- One step of the inner `for idx in candidates` argmax scan: replace the
accumulator on strictly greater score. -/
def bestStep (score : Nat → ℚ) (acc : Option Nat × ℚ) (idx : Nat) : Option Nat × ℚ :=
  if acc.2 < score idx then (some idx, score idx) else acc

/-- The inner argmax scan, started from `(None, -1e9)`. -/
def pickBest (score : Nat → ℚ) (cands : List Nat) : Option Nat × ℚ :=
  cands.foldl (bestStep score) (none, -(10 ^ 9))

/-- The `while candidates and len(selected) < kcap` loop; fuel-structural
(`cands.length + 1` fuel always suffices since each iteration erases one
candidate). -/
def mmrLoop (lam : ℚ) (qsims : List ℚ) (simD : Nat → Nat → ℚ) (kcap : Nat) :
    List Nat → List Nat → Nat → Option (List Nat)
  | selected, _, 0 => some selected
  | selected, cands, fuel + 1 =>
    if cands ≠ [] ∧ selected.length < kcap then
      match (pickBest (mmrScore lam qsims simD selected) cands).1 with
      | none => none
      | some b => mmrLoop lam qsims simD kcap (selected ++ [b]) (cands.erase b) fuel
    else some selected

/-- The `q_sims` entry for index `i` (0 when either embedding is the empty
list, mirroring Python truthiness, or when `i` is out of range). -/
def rawQSim (sqrtQ : ℚ → ℚ) (query_emb e : List ℚ) : ℚ :=
  if query_emb ≠ [] ∧ e ≠ [] then cosine_similarity sqrtQ query_emb e else 0

def mmr_rerank {μ : Type} (sqrtQ : ℚ → ℚ)
    (embedF : List (List Char) → List (List ℚ)) (query_emb : List ℚ)
    (doc_texts : List (List Char)) (doc_metas : List μ) (dflt : μ)
    (lambda_mult : ℚ) (top_k : Nat) :
    Option (List (List Char × μ)) :=
  if doc_texts = [] then some []
  else
    match mmrLoop lambda_mult
      ((embedF doc_texts).map (fun e => rawQSim sqrtQ query_emb e))
      (fun i j => cosine_similarity sqrtQ ((embedF doc_texts).getD i [])
        ((embedF doc_texts).getD j []))
      (min top_k doc_texts.length) [] (List.range doc_texts.length)
      (doc_texts.length + 1) with
    | none => none
    | some sel => some (sel.map (fun i => (doc_texts.getD i [], doc_metas.getD i dflt)))

/-- Candidate metadata record as built by `query` (named optional fields;
`id` is stamped from the index's id list). -/
structure MetaR where
  item_id : Option String := none
  start_s : Option ℚ := none
  end_s : Option ℚ := none
  id : String := ""
deriving DecidableEq

/-- Stamp `meta["id"] = ids[i] if i < len(ids) else ""` over the metadata list. -/
def stampIds (metas : List MetaR) (ids : List String) : List MetaR :=
  metas.mapIdx (fun i m => { m with id := ids.getD i ("") })

/-- Model of `vector_store.query` (the `where` parameter is always `None` in the
callers of this repository and is omitted): embed the query, over-fetch
`pre_k = max(top_k * 3, 30)` nearest neighbours — `indexQuery` models the
external Chroma index, returning `(documents, metadatas, ids)` subject to
the `allowed_item_ids` filter — then MMR-rerank with `λ = 0.7`. -/
def vsQuery (sqrtQ : ℚ → ℚ) (embedF : List (List Char) → List (List ℚ))
    (indexQuery : List ℚ → Nat → Option (List String) →
      List (List Char) × List MetaR × List String)
    (text : List Char) (top_k : Nat)
    (allowed_item_ids : Option (List String)) :
    Option (List (List Char × MetaR)) :=
  mmr_rerank sqrtQ embedF ((embedF [text]).getD 0 [])
    (indexQuery ((embedF [text]).getD 0 []) (max (top_k * 3) 30) allowed_item_ids).1
    (stampIds
      (indexQuery ((embedF [text]).getD 0 []) (max (top_k * 3) 30) allowed_item_ids).2.1
      (indexQuery ((embedF [text]).getD 0 []) (max (top_k * 3) 30) allowed_item_ids).2.2)
    {} (7 / 10) top_k

/-! ## `main.py` — the `/chat` endpoint (`api_chat`)

The store accessors (`list_chunks_by_item`, `list_groups`, `list_items`,
`get_item`) are modelled by a chunk accessor `chunksOf : String → List ChunkT`
(chunks of an item, in persisted order) and by board-filtered views of the
`groups` / `items` lists, mirroring `storage.py`'s filters.  The external
retrieval engine (`vs_query`) and answer generator (`chat_answer`) are
parameters; the result records every `vs_query` call `(query, top_k,
allowed_item_ids)` and every `chat_answer` call `(prompt, contexts)`. -/

structure GroupT where
  board_id : String
  name : List Char
  template : List Char
deriving DecidableEq

structure ItemT where
  id : String
  board_id : String
  metaGroup : Option (List Char)
deriving DecidableEq

structure ChunkT where
  text : List Char
  start_s : Option ℚ := none
  end_s : Option ℚ := none
deriving DecidableEq

/-- A context entry (`{"text": ..., "item_id": ..., "start_s": ...,
"end_s": ...}` — absent keys are `none`). -/
structure Ctx where
  text : List Char
  item_id : Option String := none
  start_s : Option ℚ := none
  end_s : Option ℚ := none
deriving DecidableEq

instance : Inhabited Ctx := ⟨⟨[], none, none, none⟩⟩

/-- Group-name/query canonicalization: lowercase and remove spaces. -/
def canon (s : List Char) : List Char :=
  (s.map Char.toLower).filter (fun c => c ≠ ' ')

/-- Test `canon and canon in qcanon`: non-empty canonical name occurring as a
substring of the canonicalized query. -/
def mentionedB (query : List Char) (g : GroupT) : Bool :=
  !(canon g.name).isEmpty && decide (canon g.name <:+: canon query)

/-- The `name_to_ids` lookup: ids of the items whose `meta["group"]` is truthy
and canonicalizes to `cname`, in item-list order. -/
def memberIds (items : List ItemT) (cname : List Char) : List String :=
  (items.filter (fun it =>
    match it.metaGroup with
    | none => false
    | some gname => !gname.isEmpty && canon gname == cname)).map ItemT.id

def descLine (g : GroupT) : List Char :=
  ("Group ".toList) ++ g.name ++ (" description: ".toList) ++ g.template

def groupHeader (name : List Char) : List Char :=
  ("=== GROUP ".toList) ++ name ++ (" ===".toList)

/-- Python `"\n".join(c.text for c in chs)`. -/
def chunkJoin (chs : List ChunkT) : List Char :=
  List.intercalate ['\n'] (chs.map ChunkT.text)

/-- The budget `k_each = max(4, (q.top_k // len(mentioned)) or 4)`. -/
def kEach (top_k nMentioned : Nat) : Nat :=
  max 4 (if top_k / nMentioned = 0 then 4 else top_k / nMentioned)

def gIds (items : List ItemT) (g : GroupT) : List String :=
  memberIds items (canon g.name)

def gPicked (vsq : List Char → Nat → Option (List String) → List Ctx)
    (items : List ItemT) (query : List Char) (k : Nat) (g : GroupT) : List Ctx :=
  if gIds items g ≠ [] then vsq query k (some (gIds items g)) else []

def gTexts0 (g : GroupT) : List (List Char) :=
  if pyStrip g.template ≠ [] then [descLine g] else []

def gFallback (chunksOf : String → List ChunkT) (items : List ItemT) (g : GroupT) :
    List (List Char) :=
  (gIds items g).filterMap (fun iid =>
    if (chunksOf iid).take 8 = [] then none
    else some (chunkJoin ((chunksOf iid).take 8)))

def gSmallBase (chunksOf : String → List ChunkT) (items : List ItemT) (g : GroupT) :
    List (List Char) :=
  ((gIds items g).take 3).filterMap (fun iid =>
    if (chunksOf iid).take 2 = [] then none
    else some (chunkJoin ((chunksOf iid).take 2)))

/-- The `texts` list accumulated for one mentioned group: the template
description line (if non-blank), then either the retrieved texts or — when
retrieval returned nothing for a group that has members — the first ≤ 8
chunks of every member, and always the small base sample (≤ 2 chunks from
each of the first 3 members). -/
def groupTexts (vsq : List Char → Nat → Option (List String) → List Ctx)
    (chunksOf : String → List ChunkT) (items : List ItemT) (query : List Char)
    (k : Nat) (g : GroupT) : List (List Char) :=
  (if gPicked vsq items query k g = [] ∧ gIds items g ≠ [] then
    gTexts0 g ++ gFallback chunksOf items g
  else
    gTexts0 g ++ (gPicked vsq items query k g).map Ctx.text) ++
    gSmallBase chunksOf items g

/-- The labeled block for one mentioned group (`None` when no material
accumulated — the Python code appends a block only `if texts:`). -/
def groupBlockOpt (vsq : List Char → Nat → Option (List String) → List Ctx)
    (chunksOf : String → List ChunkT) (items : List ItemT) (query : List Char)
    (k : Nat) (g : GroupT) : Option Ctx :=
  if groupTexts vsq chunksOf items query k g ≠ [] then
    some ⟨groupHeader g.name ++
      '\n' :: List.intercalate ['\n', '\n'] (groupTexts vsq chunksOf items query k g),
      none, none, none⟩
  else none

/-- A record of one `vs_query` call: `(query, top_k, allowed_item_ids)`. -/
abbrev CallRec := List Char × Nat × Option (List String)

/-- Lines 159–208 of `main.py`: the group-scoped context assembly, with
the list of `vs_query` calls it performs. -/
def scopedBlocks (vsq : List Char → Nat → Option (List String) → List Ctx)
    (chunksOf : String → List ChunkT) (groups : List GroupT) (items : List ItemT)
    (query : List Char) (top_k : Nat) : List Ctx × List CallRec :=
  if (groups.filter (mentionedB query)) = [] then ([], [])
  else
    ((groups.filter (mentionedB query)).filterMap
      (groupBlockOpt vsq chunksOf items query
        (kEach top_k (groups.filter (mentionedB query)).length)),
     (groups.filter (mentionedB query)).filterMap (fun g =>
       if gIds items g ≠ [] then
         some (query, kEach top_k (groups.filter (mentionedB query)).length,
           some (gIds items g))
       else none))

/-- Lookup in `{g.name: g.template for g in groups}` — dict comprehension,
last duplicate wins. -/
def lookupTemplate (groupsB : List GroupT) (gname : List Char) : Option (List Char) :=
  ((groupsB.filter (fun g => g.name == gname)).getLast?).map GroupT.template

def summaryPrompt : List Char := "Summarize the key points in 5 bullets.".toList

/-- The `q.board_id` truthiness view (`None` or the empty string are falsy). -/
def boardOf : Option String → Option String
  | none => none
  | some s => if s = "" then none else some s

structure ChatQueryT where
  board_id : Option String := none
  item_ids : Option (List String) := none
  query : List Char
  top_k : Nat := 20

structure ChatResult where
  answer : List Char
  contexts : List Ctx
  vsCalls : List CallRec
  answerArgs : List (List Char × List Ctx)
deriving DecidableEq

/-- The single-item shortcut's context list (lines 138–151): the item's
stored chunks in persisted order, with the owning group's description
inserted at position 0 when the item has a truthy `meta["group"]`, the
query names a board, that board's groups contain the name, and the
template is non-blank. -/
def descOpt (groups : List GroupT) (items : List ItemT) (bopt : Option String)
    (iid : String) : Option Ctx :=
  (boardOf bopt).bind (fun bid =>
    (items.find? (fun i => i.id == iid)).bind (fun item =>
      item.metaGroup.bind (fun gname =>
        if gname ≠ [] then
          (lookupTemplate (groups.filter (fun g => g.board_id == bid)) gname).bind
            (fun tmpl =>
              if pyStrip tmpl ≠ [] then
                some ⟨("Group ".toList) ++ gname ++ (" description: ".toList) ++ tmpl,
                  none, none, none⟩
              else none)
        else none)))

def singleItemContexts (chunksOf : String → List ChunkT) (groups : List GroupT)
    (items : List ItemT) (bopt : Option String) (iid : String) : List Ctx :=
  (descOpt groups items bopt iid).toList ++
    (chunksOf iid).map (fun c => ⟨c.text, some iid, c.start_s, c.end_s⟩)

/-- The `api_chat` handler (`POST /chat`). -/
def api_chat (vsq : List Char → Nat → Option (List String) → List Ctx)
    (chatAnswerF : List Char → List Ctx → List Char)
    (chunksOf : String → List ChunkT) (groups : List GroupT) (items : List ItemT)
    (q : ChatQueryT) : ChatResult :=
  match q.item_ids with
  | some [iid] =>
    { answer := chatAnswerF q.query (singleItemContexts chunksOf groups items q.board_id iid)
      contexts := (singleItemContexts chunksOf groups items q.board_id iid).take 10
      vsCalls := []
      answerArgs := [(q.query, singleItemContexts chunksOf groups items q.board_id iid)] }
  | _ =>
    let allowed := q.item_ids
    let scopedC :=
      match boardOf q.board_id with
      | some bid =>
        scopedBlocks vsq chunksOf (groups.filter (fun g => g.board_id == bid))
          (items.filter (fun i => i.board_id == bid)) q.query q.top_k
      | none => ([], [])
    let contexts1 := if scopedC.1 ≠ [] then scopedC.1 else vsq q.query q.top_k allowed
    let calls1 :=
      scopedC.2 ++ (if scopedC.1 ≠ [] then [] else [(q.query, q.top_k, allowed)])
    let summaryItems := match allowed with | some l => l | none => []
    let doSummaries := contexts1 = [] ∧ summaryItems ≠ []
    let summaries :=
      if doSummaries then
        summaryItems.filterMap (fun iid =>
          if (chunksOf iid).take 20 = [] then none
          else some (⟨chatAnswerF summaryPrompt
            [⟨List.intercalate ['\n', '\n'] (((chunksOf iid).take 20).map ChunkT.text),
              none, none, none⟩], some iid, none, none⟩ : Ctx))
      else []
    let summaryArgs :=
      if doSummaries then
        summaryItems.filterMap (fun iid =>
          if (chunksOf iid).take 20 = [] then none
          else some (summaryPrompt,
            [(⟨List.intercalate ['\n', '\n'] (((chunksOf iid).take 20).map ChunkT.text),
              none, none, none⟩ : Ctx)]))
      else []
    let contexts2 := if doSummaries ∧ summaries ≠ [] then summaries else contexts1
    let descs :=
      match boardOf q.board_id with
      | some bid =>
        (groups.filter (fun g => g.board_id == bid)).filterMap (fun g =>
          if pyStrip g.template ≠ [] then some (⟨descLine g, none, none, none⟩ : Ctx)
          else none)
      | none => []
    { answer := chatAnswerF q.query (contexts2 ++ descs)
      contexts := contexts2 ++ descs
      vsCalls := calls1
      answerArgs := summaryArgs ++ [(q.query, contexts2 ++ descs)] }

/-! ## `ingest.py` — VTT parsing (`_vtt_to_segments`) and the acquisition
cascade of `ingest_youtube` (lines 209–294)

`html.unescape` (Python standard library) is supplied as a parameter
`unesc`; the external collaborators are supplied as outcome values:

* `official` — the transcript-provider tier: either an exception or the
  fetched entry list (`{start, duration, text}`).
* `subs` — the auto-subtitle tier: either an exception (the code's
  `except Exception: return []`) or the lines of the downloaded `.vtt`
  file (no file found is `ok []`).
* `prep` — `ensure_client()` + the `yt_dlp` audio download of tier 3
  (not wrapped in any `try`, so an exception propagates): `error e` an
  exception, `ok false` no `.m4a` produced (`RuntimeError`), `ok true`
  audio ready.
* `a1`, `a2`, `fb` — the two primary-model (`whisper-1`) transcription
  attempts and the single fallback (`gpt-4o-mini-transcribe`) attempt. -/

/-- Python `str.isdigit()` (ASCII digits; non-empty). -/
def isDigits (s : List Char) : Bool := !s.isEmpty && s.all Char.isDigit

def lowerL (s : List Char) : List Char := s.map Char.toLower

/-- Scan for the first `'>'`; `some` of the suffix after it. -/
def afterGtAux : List Char → Option (List Char)
  | [] => none
  | c :: rest => if c = '>' then some rest else afterGtAux rest

/-- Match `[^>]+>` at the head: at least one non-`'>'` character, then the
closing `'>'`; returns the suffix after the tag. -/
def afterGt : List Char → Option (List Char)
  | [] => none
  | c :: rest => if c = '>' then none else afterGtAux rest

/-- Python `re.sub(r"<[^>]+>", " ", s)` with explicit fuel (consumed once per
character position; `s.length + 1` always suffices). -/
def tagSub : Nat → List Char → List Char
  | 0, s => s
  | _ + 1, [] => []
  | fuel + 1, c :: rest =>
    if c = '<' then
      match afterGt rest with
      | some rest' => ' ' :: tagSub fuel rest'
      | none => '<' :: tagSub fuel rest
    else c :: tagSub fuel rest

def tag_sub (s : List Char) : List Char := tagSub (s.length + 1) s

/-- Python `re.sub(r"\s+", " ", s)`: collapse each maximal whitespace run to one
space; the flag records whether the previous character was whitespace. -/
def collapseWs : Bool → List Char → List Char
  | _, [] => []
  | prevWs, c :: rest =>
    if isPyWs c then
      if prevWs then collapseWs true rest else ' ' :: collapseWs true rest
    else c :: collapseWs false rest

/-- The cleanup pipeline applied to cue text lines and to the flushed
buffer: strip tags, unescape entities, collapse whitespace, strip. -/
def vttClean (unesc : List Char → List Char) (s : List Char) : List Char :=
  pyStrip (collapseWs false (unesc (tag_sub s)))

def digitVal (c : Char) : Nat := c.toNat - '0'.toNat

/-- Cue time `int(hh)*3600 + int(mm)*60 + float("SS.mmm")`. -/
def toSecondsQ (h m s ms : Nat) : ℚ := ((h * 3600 + m * 60 + s : Nat) : ℚ) + (ms : ℚ) / 1000

/-- Parse `\d{2}:\d{2}:\d{2}\.\d{3}` at the head of the line; returns the
value in seconds and the unconsumed suffix. -/
def parseTs : List Char → Option (ℚ × List Char)
  | h1 :: h2 :: ':' :: m1 :: m2 :: ':' :: s1 :: s2 :: '.' :: d1 :: d2 :: d3 :: rest =>
    if h1.isDigit && h2.isDigit && m1.isDigit && m2.isDigit && s1.isDigit &&
        s2.isDigit && d1.isDigit && d2.isDigit && d3.isDigit then
      some (toSecondsQ (10 * digitVal h1 + digitVal h2) (10 * digitVal m1 + digitVal m2)
        (10 * digitVal s1 + digitVal s2)
        (100 * digitVal d1 + 10 * digitVal d2 + digitVal d3), rest)
    else none
  | _ => none

/-- Regex `\s+` with at least one whitespace character. -/
def skipWs1 : List Char → Option (List Char)
  | [] => none
  | c :: rest => if isPyWs c then some (rest.dropWhile isPyWs) else none

def skipArrow : List Char → Option (List Char)
  | '-' :: '-' :: '>' :: rest => some rest
  | _ => none

/-- Python `pattern.match(line)` for
`(\d{2}:\d{2}:\d{2}\.\d{3})\s+-->\s+(\d{2}:\d{2}:\d{2}\.\d{3})`
(anchored at the start, trailing content ignored). -/
def matchCue (line : List Char) : Option (ℚ × ℚ) :=
  (parseTs line).bind (fun p =>
    (skipWs1 p.2).bind (fun r2 =>
      (skipArrow r2).bind (fun r3 =>
        (skipWs1 r3).bind (fun r4 =>
          (parseTs r4).map (fun q => (p.1, q.1))))))

/-- Flush the open cue buffer into a segment (`end` falls back to `start`
when absent; blank cleaned text is discarded). -/
def vttFlush (unesc : List Char → List Char) (stOpt enOpt : Option ℚ)
    (buf : List (List Char)) : List Seg :=
  match stOpt with
  | none => []
  | some st =>
    if buf ≠ [] then
      if vttClean unesc (sjoin buf) ≠ [] then
        [⟨st, enOpt.getD st, vttClean unesc (sjoin buf)⟩]
      else []
    else []

/-- The line loop of `_vtt_to_segments`. -/
def vttLoop (unesc : List Char → List Char) :
    Option ℚ → Option ℚ → List (List Char) → List (List Char) → List Seg
  | stOpt, enOpt, buf, [] => vttFlush unesc stOpt enOpt buf
  | stOpt, enOpt, buf, raw :: rest =>
    if pyStrip raw = [] then vttLoop unesc stOpt enOpt buf rest
    else if ("WEBVTT".toList) <+: pyStrip raw then vttLoop unesc stOpt enOpt buf rest
    else
      match matchCue (pyStrip raw) with
      | some p => vttFlush unesc stOpt enOpt buf ++ vttLoop unesc (some p.1) (some p.2) [] rest
      | none =>
        if isDigits (pyStrip raw) || ("kind:".toList) <+: lowerL (pyStrip raw) ||
            ("language:".toList) <+: lowerL (pyStrip raw) then
          vttLoop unesc stOpt enOpt buf rest
        else if ("-->".toList) <:+: pyStrip raw then vttLoop unesc stOpt enOpt buf rest
        else
          if vttClean unesc (pyStrip raw) ≠ [] then
            vttLoop unesc stOpt enOpt (buf ++ [vttClean unesc (pyStrip raw)]) rest
          else vttLoop unesc stOpt enOpt buf rest

def vtt_to_segments (unesc : List Char → List Char) (lines : List (List Char)) :
    List Seg :=
  vttLoop unesc none none [] lines

/-- A transcript-provider entry (`{"start": ..., "duration": ..., "text": ...}`). -/
structure Entry where
  start : ℚ
  dur : ℚ
  text : List Char
deriving DecidableEq

/-- Tier 1: official transcript; empty-text entries are filtered out,
`end = start + duration`; any exception yields no segments. -/
def tier1Segs (official : Except Nat (List Entry)) : List Seg :=
  match official with
  | .error _ => []
  | .ok entries => entries.filterMap (fun e =>
      if pyStrip e.text = [] then none
      else some ⟨e.start, e.start + e.dur, pyStrip e.text⟩)

def tier1Text (official : Except Nat (List Entry)) : List Char :=
  sjoin ((tier1Segs official).map Seg.text)

/-- Tier 2: auto-subtitle download + VTT parse; any exception yields `[]`. -/
def tier2Segs (unesc : List Char → List Char)
    (subs : Except Nat (List (List Char))) : List Seg :=
  match subs with
  | .error _ => []
  | .ok lines => vtt_to_segments unesc lines

def tier2Text (unesc : List Char → List Char)
    (subs : Except Nat (List (List Char))) : List Char :=
  sjoin ((tier2Segs unesc subs).map Seg.text)

/-- A raw speech-to-text segment from the transcription response. -/
structure RawSeg where
  start : ℚ
  stop : ℚ
  text : List Char
deriving DecidableEq

/-- One transcription call: either a response (`text`, `segments`) or an
exception. -/
inductive Outcome where
  | ok (text : List Char) (segs : List RawSeg)
  | exn (e : Nat)
deriving DecidableEq

/-- The filter `[... for s in segs if (s.get("text") or "").strip()]`. -/
def sttSegs (l : List RawSeg) : List Seg :=
  l.filterMap (fun s =>
    if pyStrip s.text = [] then none else some ⟨s.start, s.stop, pyStrip s.text⟩)

/-- One primary-attempt iteration of the retry loop: an exception records
`last_err`; a response overwrites `text` and `segments`. -/
def sttStep (st : List Char × List Seg × Option Nat) (a : Outcome) :
    List Char × List Seg × Option Nat :=
  match a with
  | .exn e => (st.1, st.2.1, some e)
  | .ok t segs => (pyStrip t, sttSegs segs, st.2.2)

/-- The fallback-model attempt: an exception is swallowed without touching
`last_err`; a response overwrites `text` and overwrites `segments` only
when the response's segment list is non-empty. -/
def fbStep (st : List Char × List Seg × Option Nat) (a : Outcome) :
    List Char × List Seg × Option Nat :=
  match a with
  | .exn _ => st
  | .ok t segs => (pyStrip t, if segs = [] then st.2.1 else sttSegs segs, st.2.2)

inductive AcqErr where
  | prep (e : Nat)
  | noAudio
  | stt (e : Nat)
  | sttGeneric
deriving DecidableEq

/-- The text produced by one attempt in isolation (empty for exceptions). -/
def attemptText : Outcome → List Char
  | .ok t _ => pyStrip t
  | .exn _ => []

/-- The value of `last_err` after the two primary attempts (the fallback never writes it). -/
def lastPrimaryErr : Outcome → Outcome → Option Nat
  | _, .exn e => some e
  | .exn e, .ok _ _ => some e
  | .ok _ _, .ok _ _ => none

/-- Tier 3 after the audio is ready: up to 2 primary attempts (break on
non-blank text), one fallback attempt if still blank, then either the
result or a raised error.  Also returns `(primary attempts made, fallback
attempted)`. -/
def tier3 (a1 a2 fb : Outcome) : Except AcqErr (List Char × List Seg) × (Nat × Bool) :=
  if (sttStep ([], [], none) a1).1 ≠ [] then
    (.ok ((sttStep ([], [], none) a1).1, (sttStep ([], [], none) a1).2.1), (1, false))
  else if (sttStep (sttStep ([], [], none) a1) a2).1 ≠ [] then
    (.ok ((sttStep (sttStep ([], [], none) a1) a2).1,
      (sttStep (sttStep ([], [], none) a1) a2).2.1), (2, false))
  else if (fbStep (sttStep (sttStep ([], [], none) a1) a2) fb).1 ≠ [] then
    (.ok ((fbStep (sttStep (sttStep ([], [], none) a1) a2) fb).1,
      (fbStep (sttStep (sttStep ([], [], none) a1) a2) fb).2.1), (2, true))
  else
    match (fbStep (sttStep (sttStep ([], [], none) a1) a2) fb).2.2 with
    | some e => (.error (.stt e), (2, true))
    | none => (.error .sttGeneric, (2, true))

structure AcqTrace where
  sttReached : Bool
  primaryAttempts : Nat
  fallbackTried : Bool
deriving DecidableEq

/-- The acquisition part of `ingest_youtube`: official transcript, then
auto-subtitles, then audio + speech-to-text; the first two tiers fall
through silently on no usable text. -/
def acquire (official : Except Nat (List Entry)) (subs : Except Nat (List (List Char)))
    (unesc : List Char → List Char) (prep : Except Nat Bool) (a1 a2 fb : Outcome) :
    Except AcqErr (List Char × List Seg) × AcqTrace :=
  if pyStrip (tier1Text official) ≠ [] then
    (.ok (tier1Text official, tier1Segs official), ⟨false, 0, false⟩)
  else if pyStrip (tier2Text unesc subs) ≠ [] then
    (.ok (tier2Text unesc subs, tier2Segs unesc subs), ⟨false, 0, false⟩)
  else
    match prep with
    | .error e => (.error (.prep e), ⟨true, 0, false⟩)
    | .ok false => (.error .noAudio, ⟨true, 0, false⟩)
    | .ok true =>
      ((tier3 a1 a2 fb).1,
       ⟨true, (tier3 a1 a2 fb).2.1, (tier3 a1 a2 fb).2.2⟩)

/-- The spec's example VTT file: one cue header and one text line. -/
def helloVtt : List (List Char) :=
  [("00:00:01.000 --> 00:00:03.000").toList, ("Hello world").toList]

theorem sjoin_cons_cons (a b : List Char) (l : List (List Char)) :
    sjoin (a :: b :: l) = a ++ ' ' :: sjoin (b :: l) := rfl

theorem chunkLoop_zero (t : List Char) (mc ov s : Nat) : chunkLoop t mc ov s 0 = [] := rfl

theorem chunkLoop_succ (t : List Char) (mc ov s fuel : Nat) :
    chunkLoop t mc ov s (fuel + 1) =
      if s < t.length then
        if min (s + mc) t.length = t.length then [slice t s (min (s + mc) t.length - s)]
        else slice t s (min (s + mc) t.length - s) ::
          chunkLoop t mc ov (min (s + mc) t.length - ov) fuel
      else [] := by
  simp only [chunkLoop, slice]

theorem chunkLoop_ne_nil (t : List Char) (mc ov s fuel : Nat)
    (hs : s < t.length) (hf : 0 < fuel) : chunkLoop t mc ov s fuel ≠ [] := by
  cases fuel with
  | zero => omega
  | succ fuel =>
    rw [chunkLoop_succ, if_pos hs]
    split <;> simp

/-- Joining the `overlap`-dropped tails of the chunk windows starting at `s`
recovers `t.drop (s + ov)`: each window after position `s` starts `ov`
characters before the previous window's end. -/
theorem chunkLoop_flatten_drop (t : List Char) (mc ov : Nat) (hov : ov < mc) :
    ∀ fuel s, s < t.length → t.length - s ≤ fuel →
      ((chunkLoop t mc ov s fuel).map (List.drop ov)).flatten = t.drop (s + ov)
  | 0, s, hs, hf => by omega
  | fuel + 1, s, hs, hf => by
    rw [chunkLoop_succ, if_pos hs]
    by_cases he : min (s + mc) t.length = t.length
    · rw [if_pos he]
      have h1 : min (s + mc) t.length - s = t.length - s := by omega
      rw [h1]
      simp only [List.map_cons, List.map_nil, List.flatten_cons, List.flatten_nil,
        List.append_nil, slice]
      rw [List.drop_take, List.drop_drop]
      exact List.take_of_length_le (by rw [List.length_drop]; omega)
    · have hlt : s + mc < t.length := by omega
      have hmin : min (s + mc) t.length = s + mc := by omega
      rw [if_neg he, hmin]
      simp only [List.map_cons, List.flatten_cons, slice]
      rw [chunkLoop_flatten_drop t mc ov hov fuel (s + mc - ov) (by omega) (by omega)]
      have h2 : s + mc - ov + ov = s + mc := by omega
      rw [h2, List.drop_take, List.drop_drop]
      have h3 : s + mc - s - ov = mc - ov := by omega
      rw [h3]
      have h4 : t.drop (s + mc) = List.drop (mc - ov) (t.drop (s + ov)) := by
        rw [List.drop_drop]; congr 1; omega
      rw [h4, List.take_append_drop]

/-- The deduplicated chunk windows starting at `s` reconstruct `t.drop s`. -/
theorem chunkLoop_dedup (t : List Char) (mc ov : Nat) (hov : ov < mc)
    (fuel s : Nat) (hs : s < t.length) (hf : t.length - s ≤ fuel) :
    dedup ov (chunkLoop t mc ov s fuel) = t.drop s := by
  cases fuel with
  | zero => omega
  | succ fuel =>
    rw [chunkLoop_succ, if_pos hs]
    by_cases he : min (s + mc) t.length = t.length
    · rw [if_pos he]
      have h1 : min (s + mc) t.length - s = t.length - s := by omega
      rw [h1]
      simp only [dedup, slice, List.map_nil, List.flatten_nil, List.append_nil]
      exact List.take_of_length_le (by rw [List.length_drop])
    · have hlt : s + mc < t.length := by omega
      have hmin : min (s + mc) t.length = s + mc := by omega
      rw [if_neg he, hmin]
      simp only [dedup, slice]
      rw [chunkLoop_flatten_drop t mc ov hov fuel (s + mc - ov) (by omega) (by omega)]
      have h2 : s + mc - ov + ov = s + mc := by omega
      rw [h2]
      have h3 : s + mc - s = mc := by omega
      rw [h3]
      have h4 : t.drop (s + mc) = List.drop mc (t.drop s) := by
        rw [List.drop_drop]
      rw [h4, List.take_append_drop]

/-- Every chunk except the last has length exactly `max_chars`. -/
theorem chunkLoop_length_mc (t : List Char) (mc ov : Nat) (hov : ov < mc) :
    ∀ fuel s, s < t.length → t.length - s ≤ fuel →
      ∀ i, i + 1 < (chunkLoop t mc ov s fuel).length →
        ((chunkLoop t mc ov s fuel).getD i []).length = mc
  | 0, s, hs, hf => by omega
  | fuel + 1, s, hs, hf => by
    rw [chunkLoop_succ, if_pos hs]
    by_cases he : min (s + mc) t.length = t.length
    · rw [if_pos he]
      intro i hi
      simp only [List.length_cons, List.length_nil] at hi
      omega
    · have hlt : s + mc < t.length := by omega
      have hmin : min (s + mc) t.length = s + mc := by omega
      rw [if_neg he, hmin]
      intro i hi
      simp only [List.length_cons] at hi
      cases i with
      | zero =>
        simp only [List.getD_cons_zero, slice, List.length_take, List.length_drop]
        omega
      | succ i =>
        simp only [List.getD_cons_succ]
        exact chunkLoop_length_mc t mc ov hov fuel (s + mc - ov) (by omega) (by omega) i
          (by omega)

/-- The loop emits at most `t.length - s` chunks (each iteration advances
the window start by `max_chars - overlap ≥ 1`). -/
theorem chunkLoop_count (t : List Char) (mc ov : Nat) (hov : ov < mc) :
    ∀ fuel s, s < t.length → t.length - s ≤ fuel →
      (chunkLoop t mc ov s fuel).length ≤ t.length - s
  | 0, s, hs, hf => by omega
  | fuel + 1, s, hs, hf => by
    rw [chunkLoop_succ, if_pos hs]
    by_cases he : min (s + mc) t.length = t.length
    · rw [if_pos he]; simp; omega
    · have hlt : s + mc < t.length := by omega
      have hmin : min (s + mc) t.length = s + mc := by omega
      rw [if_neg he, hmin]
      have hrec := chunkLoop_count t mc ov hov fuel (s + mc - ov)
        (by omega) (by omega)
      simp only [List.length_cons]
      omega

/-! ### Step lemmas for evaluating `chunkLoop` at concrete inputs -/

theorem chunkLoop_step_mid (t : List Char) (mc ov s fuel e : Nat) (hs : s < t.length)
    (he : min (s + mc) t.length = e) (hne : e ≠ t.length) :
    chunkLoop t mc ov s (fuel + 1) =
      slice t s (e - s) :: chunkLoop t mc ov (e - ov) fuel := by
  rw [chunkLoop_succ, if_pos hs, he, if_neg hne]

theorem chunkLoop_step_last (t : List Char) (mc ov s fuel : Nat) (hs : s < t.length)
    (he : min (s + mc) t.length = t.length) :
    chunkLoop t mc ov s (fuel + 1) = [slice t s (t.length - s)] := by
  rw [chunkLoop_succ, if_pos hs, he, if_pos rfl]

theorem dropWhile_replicate {p : Char → Bool} {a : Char} (h : p a = false) (n : Nat) :
    (List.replicate n a).dropWhile p = List.replicate n a := by
  cases n with
  | zero => rfl
  | succ n => rw [List.replicate_succ, List.dropWhile_cons, h]; simp

theorem pyStrip_replicate {a : Char} (h : isPyWs a = false) (n : Nat) :
    pyStrip (List.replicate n a) = List.replicate n a := by
  unfold pyStrip
  rw [dropWhile_replicate h, List.reverse_replicate, dropWhile_replicate h,
    List.reverse_replicate]

theorem slice_replicate (n : Nat) (a : Char) (s k : Nat) :
    slice (List.replicate n a) s k = List.replicate (min k (n - s)) a := by
  simp [slice, List.drop_replicate, List.take_replicate]

/-- Concrete evaluation of `chunk_text` on 2500 copies of `'A'` with
`max_chars = 1200`, `overlap = 150`: three windows starting at offsets
0, 1050 and 2100. -/
theorem chunk2500_eval :
    chunk_text (List.replicate 2500 'A') 1200 150 =
      [slice (List.replicate 2500 'A') 0 1200,
       slice (List.replicate 2500 'A') 1050 1200,
       slice (List.replicate 2500 'A') 2100 400] := by
  have hstrip : pyStrip (List.replicate 2500 'A') = List.replicate 2500 'A' :=
    pyStrip_replicate (by decide) 2500
  have hlen : (List.replicate 2500 'A').length = 2500 := List.length_replicate 2500 'A'
  unfold chunk_text
  rw [hstrip, if_neg (by simp), hlen]
  have e1 : chunkLoop (List.replicate 2500 'A') 1200 150 0 (2500 + 1) =
      slice (List.replicate 2500 'A') 0 1200 ::
        chunkLoop (List.replicate 2500 'A') 1200 150 1050 2500 := by
    have h := chunkLoop_step_mid (List.replicate 2500 'A') 1200 150 0 2500 1200
      (by rw [hlen]; norm_num) (by rw [hlen]; omega) (by rw [hlen]; norm_num)
    norm_num at h
    exact h
  have e2 : chunkLoop (List.replicate 2500 'A') 1200 150 1050 2500 =
      slice (List.replicate 2500 'A') 1050 1200 ::
        chunkLoop (List.replicate 2500 'A') 1200 150 2100 2499 := by
    have h := chunkLoop_step_mid (List.replicate 2500 'A') 1200 150 1050 2499 2250
      (by rw [hlen]; norm_num) (by rw [hlen]; omega) (by rw [hlen]; norm_num)
    norm_num at h
    exact h
  have e3 : chunkLoop (List.replicate 2500 'A') 1200 150 2100 2499 =
      [slice (List.replicate 2500 'A') 2100 400] := by
    have h := chunkLoop_step_last (List.replicate 2500 'A') 1200 150 2100 2498
      (by rw [hlen]; norm_num) (by rw [hlen]; norm_num)
    rw [hlen] at h
    norm_num at h
    exact h
  rw [e1, e2, e3]

theorem chunk2500_lengths :
    (chunk_text (List.replicate 2500 'A') 1200 150).map List.length =
      [1200, 1200, 400] := by
  rw [chunk2500_eval]
  rw [slice_replicate, slice_replicate, slice_replicate]
  have m1 : min 1200 (2500 - 0) = 1200 := by omega
  have m2 : min 1200 (2500 - 1050) = 1200 := by omega
  have m3 : min 400 (2500 - 2100) = 400 := by omega
  rw [m1, m2, m3]
  simp only [List.map_cons, List.map_nil, List.length_replicate]

/-- C2 — corrected.  `chunk_text` on 2500 `'A'`s with `max_chars = 1200`,
`overlap = 150` returns exactly 3 chunks, the second window starting at
input offset 1050 and the third at offset 2100; the chunk lengths are
1200, 1200 and **400** (the spec's claimed final length of 250 is an
arithmetic slip: the last window spans `[2100, 2500)`). -/
theorem c2_chunk_text_2500 :
    chunk_text (List.replicate 2500 'A') 1200 150 =
      [slice (List.replicate 2500 'A') 0 1200,
       slice (List.replicate 2500 'A') 1050 1200,
       slice (List.replicate 2500 'A') 2100 400] ∧
    (chunk_text (List.replicate 2500 'A') 1200 150).map List.length =
      [1200, 1200, 400] :=
  ⟨chunk2500_eval, chunk2500_lengths⟩

/-- C2 — counterexample to the claim as stated: the third chunk has length
400, not 250, so the claimed length profile `[1200, 1200, 250]` is false. -/
theorem c2_spec_lengths_refuted :
    ¬ (chunk_text (List.replicate 2500 'A') 1200 150).map List.length =
      [1200, 1200, 250] := by
  rw [chunk2500_lengths]
  decide

/-- C4 — amended.  For `overlap < max_chars`, the chunk windows of
`chunk_text`, deduplicated by window index, reconstruct the **trimmed**
input text (the Python code strips the text before windowing, so the
original text is recovered exactly when it has no leading or trailing
whitespace); every chunk except the last has length exactly `max_chars`;
and the number of chunks is finite (bounded by the trimmed length). -/
theorem c4_chunk_text_reconstruction (t : List Char) (mc ov : Nat) (hov : ov < mc) :
    dedup ov (chunk_text t mc ov) = pyStrip t ∧
    (∀ i, i + 1 < (chunk_text t mc ov).length →
      ((chunk_text t mc ov).getD i []).length = mc) ∧
    (chunk_text t mc ov).length ≤ (pyStrip t).length := by
  unfold chunk_text
  by_cases h : pyStrip t = []
  · rw [if_pos h]
    refine ⟨h.symm, ?_, ?_⟩
    · intro i hi
      simp at hi
    · simp
  · rw [if_neg h]
    have hu : 0 < (pyStrip t).length := List.length_pos.mpr h
    refine ⟨?_, ?_, ?_⟩
    · rw [chunkLoop_dedup (pyStrip t) mc ov hov ((pyStrip t).length + 1) 0 hu (by omega)]
      simp
    · intro i hi
      exact chunkLoop_length_mc (pyStrip t) mc ov hov ((pyStrip t).length + 1) 0 hu
        (by omega) i hi
    · have := chunkLoop_count (pyStrip t) mc ov hov ((pyStrip t).length + 1) 0 hu
        (by omega)
      omega

/-- C4 — counterexample to the claim as stated: for an input with
surrounding whitespace, the deduplicated chunks reconstruct the trimmed
text, not the original input. -/
theorem c4_original_text_refuted :
    ¬ dedup 150 (chunk_text [' ', 'a', ' '] 1200 150) = [' ', 'a', ' '] := by
  decide

/-- Witness for `c4_chunk_text_reconstruction` at `t = "abcde"`,
`max_chars = 2`, `overlap = 1`. -/
theorem c4_chunk_text_reconstruction_witness :
    1 < 2 ∧
    (dedup 1 (chunk_text ['a', 'b', 'c', 'd', 'e'] 2 1) =
        pyStrip ['a', 'b', 'c', 'd', 'e'] ∧
      (∀ i, i + 1 < (chunk_text ['a', 'b', 'c', 'd', 'e'] 2 1).length →
        ((chunk_text ['a', 'b', 'c', 'd', 'e'] 2 1).getD i []).length = 2) ∧
      (chunk_text ['a', 'b', 'c', 'd', 'e'] 2 1).length ≤
        (pyStrip ['a', 'b', 'c', 'd', 'e']).length) :=
  ⟨by decide, c4_chunk_text_reconstruction ['a', 'b', 'c', 'd', 'e'] 2 1 (by decide)⟩

theorem sjoin_append_singleton (l : List (List Char)) (hne : l ≠ []) (t : List Char) :
    sjoin (l ++ [t]) = sjoin l ++ ' ' :: t := by
  induction l with
  | nil => exact absurd rfl hne
  | cons x xs ih =>
    cases xs with
    | nil => rfl
    | cons y ys =>
      have ih' := ih (by simp)
      simp only [List.cons_append] at ih' ⊢
      rw [sjoin_cons_cons, sjoin_cons_cons, ih']
      simp [List.append_assoc]

theorem sjoin_glue (a b : List Char) (l : List (List Char)) :
    sjoin ((a ++ ' ' :: b) :: l) = sjoin (a :: b :: l) := by
  cases l with
  | nil => rfl
  | cons c l' =>
    rw [sjoin_cons_cons, sjoin_cons_cons, sjoin_cons_cons, List.append_assoc]
    simp

theorem mergeLoop_texts_ne_nil (mc : Nat) (mg ms : ℚ) :
    ∀ (rest : List Seg) (cs ce : ℚ) (ct : List Char),
      (mergeLoop mc mg ms cs ce ct rest).1 ≠ []
  | [], _, _, _ => by simp [mergeLoop]
  | seg :: rest, cs, ce, ct => by
    rw [mergeLoop]
    split
    · exact mergeLoop_texts_ne_nil mc mg ms rest cs seg.end_s (ct ++ ' ' :: seg.text)
    · simp

theorem mergeLoopG_ne_nil (mc : Nat) (mg ms : ℚ) :
    ∀ (rest : List Seg) (cs ce : ℚ) (ct : List Char) (g : List Seg),
      mergeLoopG mc mg ms cs ce ct g rest ≠ []
  | [], _, _, _, _ => by simp [mergeLoopG]
  | seg :: rest, cs, ce, ct, g => by
    rw [mergeLoopG]
    split
    · exact mergeLoopG_ne_nil mc mg ms rest cs seg.end_s (ct ++ ' ' :: seg.text) (g ++ [seg])
    · simp

/-- The instrumented groups concatenate back to the input segments. -/
theorem mergeLoopG_flatten (mc : Nat) (mg ms : ℚ) :
    ∀ (rest : List Seg) (cs ce : ℚ) (ct : List Char) (g : List Seg),
      (mergeLoopG mc mg ms cs ce ct g rest).flatten = g ++ rest
  | [], _, _, _, _ => by simp [mergeLoopG]
  | seg :: rest, cs, ce, ct, g => by
    rw [mergeLoopG]
    split
    · rw [mergeLoopG_flatten mc mg ms rest cs seg.end_s (ct ++ ' ' :: seg.text) (g ++ [seg])]
      simp
    · rw [List.flatten_cons,
        mergeLoopG_flatten mc mg ms rest seg.start_s seg.end_s seg.text [seg]]
      simp

/-- Agreement of `mergeLoop` with the instrumented partition: given the
state invariants relating `(cs, ce, ct)` to the open group `g`, the plain
loop's outputs are the per-group joins and the per-group (first-start,
last-end) metas. -/
theorem mergeLoop_agree (mc : Nat) (mg ms : ℚ) :
    ∀ (rest : List Seg) (cs ce : ℚ) (ct : List Char) (g : List Seg),
      g ≠ [] → ct = sjoin (g.map Seg.text) → cs = headStart g → ce = lastEnd g →
      mergeLoop mc mg ms cs ce ct rest =
        ((mergeLoopG mc mg ms cs ce ct g rest).map (fun h => sjoin (h.map Seg.text)),
         (mergeLoopG mc mg ms cs ce ct g rest).map (fun h => (headStart h, lastEnd h)))
  | [], cs, ce, ct, g, hg, hct, hcs, hce => by
    simp [mergeLoop, mergeLoopG, hct, hcs, hce]
  | seg :: rest, cs, ce, ct, g, hg, hct, hcs, hce => by
    rw [mergeLoop, mergeLoopG]
    split
    · refine mergeLoop_agree mc mg ms rest cs seg.end_s (ct ++ ' ' :: seg.text)
        (g ++ [seg]) (by simp) ?_ ?_ ?_
      · rw [hct, List.map_append, List.map_cons, List.map_nil,
          sjoin_append_singleton _ (by simpa using hg)]
      · rw [hcs, headStart, headStart, List.head?_append]
        cases g with
        | nil => exact absurd rfl hg
        | cons a g' => simp
      · rw [lastEnd, List.getLast?_concat]
        rfl
    · rw [mergeLoop_agree mc mg ms rest seg.start_s seg.end_s seg.text [seg]
        (by simp) (by simp [sjoin]) (by simp [headStart]) (by simp [lastEnd])]
      simp [hct, hcs, hce]

/-- Span invariant: if the open buffer satisfies the span bound and every
remaining segment does individually, every emitted meta satisfies it. -/
theorem mergeLoop_span (mc : Nat) (mg ms : ℚ) :
    ∀ (rest : List Seg) (cs ce : ℚ) (ct : List Char),
      (∀ s ∈ rest, s.end_s - s.start_s ≤ ms) → ce - cs ≤ ms →
      ∀ m ∈ (mergeLoop mc mg ms cs ce ct rest).2, m.2 - m.1 ≤ ms
  | [], cs, ce, ct, _, hce => by
    intro m hm
    simp [mergeLoop] at hm
    rw [hm]
    exact hce
  | seg :: rest, cs, ce, ct, h, hce => by
    rw [mergeLoop]
    split
    · rename_i hcond
      exact mergeLoop_span mc mg ms rest cs seg.end_s (ct ++ ' ' :: seg.text)
        (fun s hs => h s (List.mem_cons_of_mem _ hs)) hcond.1
    · intro m hm
      simp only at hm
      rcases List.mem_cons.mp hm with h1 | h2
      · rw [h1]
        exact hce
      · exact mergeLoop_span mc mg ms rest seg.start_s seg.end_s seg.text
          (fun s hs => h s (List.mem_cons_of_mem _ hs))
          (h seg (List.mem_cons_self _ _)) m h2

/-- Gap invariant: within every emitted group, each consecutive pair of
source segments satisfies the gap bound. -/
theorem mergeLoopG_gaps (mc : Nat) (mg ms : ℚ) :
    ∀ (rest : List Seg) (cs ce : ℚ) (ct : List Char) (g : List Seg),
      ce = lastEnd g →
      List.Chain' (fun a b => b.start_s - a.end_s ≤ mg) g →
      ∀ g' ∈ mergeLoopG mc mg ms cs ce ct g rest,
        List.Chain' (fun a b => b.start_s - a.end_s ≤ mg) g'
  | [], cs, ce, ct, g, hce, hch => by
    intro g' hg'
    simp [mergeLoopG] at hg'
    rw [hg']
    exact hch
  | seg :: rest, cs, ce, ct, g, hce, hch => by
    rw [mergeLoopG]
    split
    · rename_i hcond
      refine mergeLoopG_gaps mc mg ms rest cs seg.end_s (ct ++ ' ' :: seg.text)
        (g ++ [seg]) ?_ ?_
      · rw [lastEnd, List.getLast?_concat]
        rfl
      · rw [List.chain'_append]
        refine ⟨hch, List.chain'_singleton _, ?_⟩
        intro x hx y hy
        simp only [List.head?_cons, Option.mem_def, Option.some.injEq] at hy
        subst hy
        have hxe : x.end_s = ce := by
          rw [hce, lastEnd, hx]
          rfl
        rw [hxe]
        exact hcond.2.1
    · intro g' hg'
      rcases List.mem_cons.mp hg' with h1 | h2
      · rw [h1]
        exact hch
      · exact mergeLoopG_gaps mc mg ms rest seg.start_s seg.end_s seg.text [seg]
          (by simp [lastEnd]) (List.chain'_singleton _) g' h2

theorem mergeLoop_sjoin (mc : Nat) (mg ms : ℚ) :
    ∀ (rest : List Seg) (cs ce : ℚ) (ct : List Char),
      sjoin (mergeLoop mc mg ms cs ce ct rest).1 = sjoin (ct :: rest.map Seg.text)
  | [], _, _, _ => rfl
  | seg :: rest, cs, ce, ct => by
    rw [mergeLoop]
    split
    · rw [mergeLoop_sjoin mc mg ms rest cs seg.end_s (ct ++ ' ' :: seg.text)]
      rw [List.map_cons, sjoin_glue]
    · simp only [List.map_cons]
      have hne := mergeLoop_texts_ne_nil mc mg ms rest seg.start_s seg.end_s seg.text
      cases hr : (mergeLoop mc mg ms seg.start_s seg.end_s seg.text rest).1 with
      | nil => exact absurd hr hne
      | cons x xs =>
        rw [sjoin_cons_cons]
        have := mergeLoop_sjoin mc mg ms rest seg.start_s seg.end_s seg.text
        rw [hr] at this
        rw [this, sjoin_cons_cons]

/-- C3 — amended.  Provided every *input* segment individually satisfies
`end_s − start_s ≤ max_span_s`, every unit emitted by `merge_segments`
satisfies the span bound, and within each emitted unit the gap between any
two consecutive merged source segments is `≤ max_gap_s` (the partition
`mergeGroups` flattens back to the input and induces exactly the emitted
texts and metas).  The per-segment hypothesis is necessary: the Python
loop never checks the seed segment's own span, so a single segment wider
than `max_span_s` is emitted as-is (see the counterexample). -/
theorem c3_merge_span_and_gaps (segs : List Seg) (mc : Nat) (mg ms : ℚ)
    (h : ∀ s ∈ segs, s.end_s - s.start_s ≤ ms) :
    (∀ m ∈ (merge_segments segs mc mg ms).2, m.2 - m.1 ≤ ms) ∧
    (mergeGroups segs mc mg ms).flatten = segs ∧
    (merge_segments segs mc mg ms).1 =
      (mergeGroups segs mc mg ms).map (fun g => sjoin (g.map Seg.text)) ∧
    (merge_segments segs mc mg ms).2 =
      (mergeGroups segs mc mg ms).map (fun g => (headStart g, lastEnd g)) ∧
    ∀ g ∈ mergeGroups segs mc mg ms,
      List.Chain' (fun a b => b.start_s - a.end_s ≤ mg) g := by
  cases segs with
  | nil =>
    refine ⟨?_, ?_, ?_, ?_, ?_⟩ <;> simp [merge_segments, mergeGroups]
  | cons seg rest =>
    have hms : merge_segments (seg :: rest) mc mg ms =
        mergeLoop mc mg ms seg.start_s seg.end_s seg.text rest := rfl
    have hmg : mergeGroups (seg :: rest) mc mg ms =
        mergeLoopG mc mg ms seg.start_s seg.end_s seg.text [seg] rest := rfl
    have hagree := mergeLoop_agree mc mg ms rest seg.start_s seg.end_s seg.text [seg]
      (by simp) (by simp [sjoin]) (by simp [headStart]) (by simp [lastEnd])
    refine ⟨?_, ?_, ?_, ?_, ?_⟩
    · rw [hms]
      exact mergeLoop_span mc mg ms rest seg.start_s seg.end_s seg.text
        (fun s hs => h s (List.mem_cons_of_mem _ hs)) (h seg (List.mem_cons_self _ _))
    · rw [hmg]
      exact mergeLoopG_flatten mc mg ms rest seg.start_s seg.end_s seg.text [seg]
    · rw [hms, hmg, hagree]
    · rw [hms, hmg, hagree]
    · rw [hmg]
      exact mergeLoopG_gaps mc mg ms rest seg.start_s seg.end_s seg.text [seg]
        (by simp [lastEnd]) (List.chain'_singleton _)

/-- C3 — counterexample to the claim as stated: a single input segment
spanning 100 s is emitted unchanged as a unit whose span exceeds
`max_span_s = 60`, because the merge loop never checks the seed segment's
own span. -/
theorem c3_span_refuted :
    ¬ (∀ m ∈ (merge_segments [⟨0, 100, ['x']⟩] 600 (5 / 2) 60).2,
        m.2 - m.1 ≤ 60) := by
  simp [merge_segments, mergeLoop]
  norm_num

/-- Witness for `c3_merge_span_and_gaps` at the spec's worked example with
the default bounds. -/
theorem c3_merge_span_and_gaps_witness :
    (∀ s ∈ exSegs, s.end_s - s.start_s ≤ 60) ∧
    ((∀ m ∈ (merge_segments exSegs 600 (5 / 2) 60).2, m.2 - m.1 ≤ 60) ∧
      (mergeGroups exSegs 600 (5 / 2) 60).flatten = exSegs ∧
      (merge_segments exSegs 600 (5 / 2) 60).1 =
        (mergeGroups exSegs 600 (5 / 2) 60).map (fun g => sjoin (g.map Seg.text)) ∧
      (merge_segments exSegs 600 (5 / 2) 60).2 =
        (mergeGroups exSegs 600 (5 / 2) 60).map (fun g => (headStart g, lastEnd g)) ∧
      ∀ g ∈ mergeGroups exSegs 600 (5 / 2) 60,
        List.Chain' (fun a b => b.start_s - a.end_s ≤ 5 / 2) g) :=
  ⟨by intro s hs; fin_cases hs <;> norm_num,
   c3_merge_span_and_gaps exSegs 600 (5 / 2) 60
     (by intro s hs; fin_cases hs <;> norm_num)⟩

/-- C9 — confirmed.  Joining the texts emitted by `merge_segments` with
single spaces yields exactly the single-space join of the input segment
texts in order, and the empty input yields the empty output. -/
theorem c9_merge_text_preservation (segs : List Seg) (mc : Nat) (mg ms : ℚ) :
    sjoin (merge_segments segs mc mg ms).1 = sjoin (segs.map Seg.text) ∧
    merge_segments ([] : List Seg) mc mg ms = ([], []) := by
  constructor
  · cases segs with
    | nil => rfl
    | cons seg rest =>
      simp only [List.map_cons]
      exact mergeLoop_sjoin mc mg ms rest seg.start_s seg.end_s seg.text
  · rfl

/-- C1 — code bug.  Deleting board `b1` from `dbEx` correctly removes item
`i1` and keeps item `i2` (which belongs to board `b2`), but deletes **all**
chunks — including chunk `c2`, whose owning item `i2` survives — because
`delete_board` builds `item_ids` out of every chunk in the store and then
drops every chunk whose `item_id` lies in that set.  This contradicts the
spec's "deleted only when the owning item is deleted". -/
theorem c1_delete_board_deletes_foreign_chunks :
    (delete_board dbEx ("b1")).boards = [⟨"b2"⟩] ∧
    (delete_board dbEx ("b1")).items = [⟨"i2", "b2"⟩] ∧
    (delete_board dbEx ("b1")).chunks = [] ∧
    (delete_item_and_chunks dbEx ("i1")).chunks = [⟨"c2", "i2"⟩] := by
  decide

theorem foldBest_spec (score : Nat → ℚ) :
    ∀ (cands : List Nat) (acc : Option Nat × ℚ),
      (List.foldl (bestStep score) acc cands = acc ∨
        ∃ b ∈ cands, List.foldl (bestStep score) acc cands = (some b, score b)) ∧
      acc.2 ≤ (List.foldl (bestStep score) acc cands).2 ∧
      ∀ c ∈ cands, score c ≤ (List.foldl (bestStep score) acc cands).2
  | [], acc => ⟨Or.inl rfl, le_refl _, by simp⟩
  | c :: cs, acc => by
    rw [List.foldl_cons]
    obtain ⟨h1, h2, h3⟩ := foldBest_spec score cs (bestStep score acc c)
    refine ⟨?_, ?_, ?_⟩
    · rcases h1 with h | ⟨b, hb, hr⟩
      · rw [h]
        unfold bestStep
        split
        · exact Or.inr ⟨c, List.mem_cons_self _ _, rfl⟩
        · exact Or.inl rfl
      · exact Or.inr ⟨b, List.mem_cons_of_mem _ hb, hr⟩
    · refine le_trans ?_ h2
      unfold bestStep
      split
      · rename_i h
        exact le_of_lt h
      · exact le_refl _
    · intro x hx
      rcases List.mem_cons.mp hx with rfl | hx'
      · refine le_trans ?_ h2
        unfold bestStep
        split
        · exact le_refl _
        · rename_i h
          exact le_of_not_lt h
      · exact h3 x hx'

theorem pickBest_fst_some (score : Nat → ℚ) (cands : List Nat) (b : Nat)
    (h : (pickBest score cands).1 = some b) :
    b ∈ cands ∧ ∀ c ∈ cands, score c ≤ score b := by
  obtain ⟨h1, h2, h3⟩ := foldBest_spec score cands (none, -(10 ^ 9))
  rcases h1 with he | ⟨b', hb', hr⟩
  · unfold pickBest at h
    rw [he] at h
    simp at h
  · unfold pickBest at h
    rw [hr] at h
    simp only [Option.some.injEq] at h
    subst h
    exact ⟨hb', fun c hc => by simpa [hr] using h3 c hc⟩

theorem mmrLoop_length (lam : ℚ) (qsims : List ℚ) (simD : Nat → Nat → ℚ) (kcap : Nat) :
    ∀ (fuel : Nat) (selected cands out : List Nat), selected.length ≤ kcap →
      mmrLoop lam qsims simD kcap selected cands fuel = some out → out.length ≤ kcap
  | 0, selected, cands, out, hsel, h => by
    rw [mmrLoop] at h
    injection h with h'
    subst h'
    exact hsel
  | fuel + 1, selected, cands, out, hsel, h => by
    rw [mmrLoop] at h
    by_cases hg : cands ≠ [] ∧ selected.length < kcap
    · rw [if_pos hg] at h
      cases hpb : (pickBest (mmrScore lam qsims simD selected) cands).1 with
      | none =>
        rw [hpb] at h
        exact absurd h (by simp)
      | some b =>
        rw [hpb] at h
        exact mmrLoop_length lam qsims simD kcap fuel (selected ++ [b]) (cands.erase b)
          out (by simp only [List.length_append, List.length_cons, List.length_nil]; omega) h
    · rw [if_neg hg] at h
      injection h with h'
      subst h'
      exact hsel

theorem mmrLoop_nodup (lam : ℚ) (qsims : List ℚ) (simD : Nat → Nat → ℚ) (kcap : Nat) :
    ∀ (fuel : Nat) (selected cands out : List Nat), selected.Nodup → cands.Nodup →
      (∀ i ∈ selected, i ∉ cands) →
      mmrLoop lam qsims simD kcap selected cands fuel = some out →
      out.Nodup ∧ ∀ i ∈ out, i ∈ selected ∨ i ∈ cands
  | 0, selected, cands, out, hs, hc, hd, h => by
    rw [mmrLoop] at h
    injection h with h'
    subst h'
    exact ⟨hs, fun i hi => Or.inl hi⟩
  | fuel + 1, selected, cands, out, hs, hc, hd, h => by
    rw [mmrLoop] at h
    by_cases hg : cands ≠ [] ∧ selected.length < kcap
    · rw [if_pos hg] at h
      cases hpb : (pickBest (mmrScore lam qsims simD selected) cands).1 with
      | none =>
        rw [hpb] at h
        exact absurd h (by simp)
      | some b =>
        rw [hpb] at h
        obtain ⟨hb, _⟩ := pickBest_fst_some _ _ _ hpb
        have hbs : b ∉ selected := fun hbsel => hd b hbsel hb
        obtain ⟨hnd, hmem⟩ := mmrLoop_nodup lam qsims simD kcap fuel (selected ++ [b])
          (cands.erase b) out
          (by
            rw [List.nodup_append]
            exact ⟨hs, List.nodup_singleton b, fun x hx hy => by
              simp only [List.mem_singleton] at hy
              subst hy
              exact hbs hx⟩)
          (hc.erase b)
          (by
            intro i hi
            rcases List.mem_append.mp hi with hi' | hi'
            · exact fun hmem' => hd i hi' (List.mem_of_mem_erase hmem')
            · simp only [List.mem_singleton] at hi'
              subst hi'
              intro hmem'
              exact absurd (hc.mem_erase_iff.mp hmem').1 (by simp))
          h
        refine ⟨hnd, fun i hi => ?_⟩
        rcases hmem i hi with hi' | hi'
        · rcases List.mem_append.mp hi' with hi'' | hi''
          · exact Or.inl hi''
          · simp only [List.mem_singleton] at hi''
            subst hi''
            exact Or.inr hb
        · exact Or.inr (List.mem_of_mem_erase hi')
    · rw [if_neg hg] at h
      injection h with h'
      subst h'
      exact ⟨hs, fun i hi => Or.inl hi⟩

theorem mmrLoop_head (lam : ℚ) (qsims : List ℚ) (simD : Nat → Nat → ℚ) (kcap : Nat) :
    ∀ (fuel : Nat) (selected cands out : List Nat),
      mmrLoop lam qsims simD kcap selected cands fuel = some out → selected ≠ [] →
      out.head? = selected.head?
  | 0, selected, cands, out, h, hne => by
    rw [mmrLoop] at h
    injection h with h'
    rw [h']
  | fuel + 1, selected, cands, out, h, hne => by
    rw [mmrLoop] at h
    by_cases hg : cands ≠ [] ∧ selected.length < kcap
    · rw [if_pos hg] at h
      cases hpb : (pickBest (mmrScore lam qsims simD selected) cands).1 with
      | none =>
        rw [hpb] at h
        exact absurd h (by simp)
      | some b =>
        rw [hpb] at h
        have := mmrLoop_head lam qsims simD kcap fuel (selected ++ [b]) (cands.erase b)
          out h (by simp)
        rw [this]
        cases selected with
        | nil => exact absurd rfl hne
        | cons x xs => simp
    · rw [if_neg hg] at h
      injection h with h'
      rw [h']

theorem mmrScore_nil (lam : ℚ) (qsims : List ℚ) (simD : Nat → Nat → ℚ) (idx : Nat) :
    mmrScore lam qsims simD [] idx = lam * qsims.getD idx 0 := by
  simp [mmrScore, maxD]

/-- The very first pick of the MMR loop maximises the pure
query-similarity score over all candidates. -/
theorem mmrLoop_first (lam : ℚ) (qsims : List ℚ) (simD : Nat → Nat → ℚ)
    (kcap : Nat) (cands : List Nat) (fuel : Nat) (out : List Nat)
    (h : mmrLoop lam qsims simD kcap [] cands fuel = some out) (hne : out ≠ []) :
    ∃ b, out.head? = some b ∧ b ∈ cands ∧
      ∀ c ∈ cands, lam * qsims.getD c 0 ≤ lam * qsims.getD b 0 := by
  cases fuel with
  | zero =>
    rw [mmrLoop] at h
    injection h with h'
    exact absurd h'.symm hne
  | succ fuel =>
    rw [mmrLoop] at h
    by_cases hg : cands ≠ [] ∧ ([] : List Nat).length < kcap
    · rw [if_pos hg] at h
      cases hpb : (pickBest (mmrScore lam qsims simD []) cands).1 with
      | none =>
        rw [hpb] at h
        exact absurd h (by simp)
      | some b =>
        rw [hpb] at h
        obtain ⟨hb, hmax⟩ := pickBest_fst_some _ _ _ hpb
        have hh := mmrLoop_head lam qsims simD kcap fuel ([] ++ [b]) (cands.erase b)
          out h (by simp)
        refine ⟨b, by simpa using hh, hb, fun c hc => ?_⟩
        have := hmax c hc
        rwa [mmrScore_nil, mmrScore_nil] at this
    · rw [if_neg hg] at h
      injection h with h'
      exact absurd h'.symm hne

theorem getD_map_rawQSim (sqrtQ : ℚ → ℚ) (q : List ℚ) (embs : List (List ℚ)) (i : Nat) :
    ((embs.map (fun e => rawQSim sqrtQ q e)).getD i 0) = rawQSim sqrtQ q (embs.getD i []) := by
  rw [List.getD_eq_getElem?_getD, List.getD_eq_getElem?_getD, List.getElem?_map]
  cases h : embs[i]? with
  | none => simp [rawQSim]
  | some e => simp

/-- C5 — confirmed.  (i) An empty pre-fetched candidate set yields
`some []` (an empty result, not an error, i.e. not the `none` that models
the crash path).  (ii) Whenever MMR reranking returns normally, it returns
at most `top_k` candidates, its selection indices are duplicate-free and
in range, and the first selected candidate maximises the raw
query-similarity `q_sims` over all pre-fetched candidates.  (iii)
`vector_store.query` is exactly this reranking applied to the index's
pre-fetched `(documents, metadatas, ids)` with `λ = 0.7`. -/
theorem c5_mmr_retrieval_properties {μ : Type} (sqrtQ : ℚ → ℚ)
    (embedF : List (List Char) → List (List ℚ)) (query_emb : List ℚ)
    (doc_texts : List (List Char)) (doc_metas : List μ) (dflt : μ) (top_k : Nat)
    (indexQuery : List ℚ → Nat → Option (List String) →
      List (List Char) × List MetaR × List String)
    (text : List Char) (allowed : Option (List String)) :
    mmr_rerank sqrtQ embedF query_emb [] doc_metas dflt (7 / 10) top_k = some [] ∧
    (∀ out, mmr_rerank sqrtQ embedF query_emb doc_texts doc_metas dflt (7 / 10) top_k =
        some out →
      out.length ≤ top_k ∧
      ∃ sel : List Nat, sel.Nodup ∧ (∀ i ∈ sel, i < doc_texts.length) ∧
        out = sel.map (fun i => (doc_texts.getD i [], doc_metas.getD i dflt)) ∧
        ∀ hne : sel ≠ [], ∀ j, j < doc_texts.length →
          rawQSim sqrtQ query_emb ((embedF doc_texts).getD j []) ≤
            rawQSim sqrtQ query_emb ((embedF doc_texts).getD (sel.head hne) [])) ∧
    vsQuery sqrtQ embedF indexQuery text top_k allowed =
      mmr_rerank sqrtQ embedF ((embedF [text]).getD 0 [])
        (indexQuery ((embedF [text]).getD 0 []) (max (top_k * 3) 30) allowed).1
        (stampIds
          (indexQuery ((embedF [text]).getD 0 []) (max (top_k * 3) 30) allowed).2.1
          (indexQuery ((embedF [text]).getD 0 []) (max (top_k * 3) 30) allowed).2.2)
        {} (7 / 10) top_k := by
  refine ⟨by simp [mmr_rerank], ?_, rfl⟩
  intro out h
  by_cases hdt : doc_texts = []
  · subst hdt
    simp only [mmr_rerank, if_true, eq_self_iff_true, Option.some.injEq] at h
    subst h
    refine ⟨by simp, [], List.nodup_nil, by simp, by simp, ?_⟩
    intro hne
    exact absurd rfl hne
  · rw [mmr_rerank, if_neg hdt] at h
    cases hloop : mmrLoop (7 / 10)
        ((embedF doc_texts).map (fun e => rawQSim sqrtQ query_emb e))
        (fun i j => cosine_similarity sqrtQ ((embedF doc_texts).getD i [])
          ((embedF doc_texts).getD j []))
        (min top_k doc_texts.length) [] (List.range doc_texts.length)
        (doc_texts.length + 1) with
    | none =>
      rw [hloop] at h
      exact absurd h (by simp)
    | some sel =>
      rw [hloop] at h
      simp only [Option.some.injEq] at h
      subst h
      have hlen := mmrLoop_length _ _ _ _ _ _ _ _ (by simp) hloop
      obtain ⟨hnd, hmem⟩ := mmrLoop_nodup _ _ _ _ _ _ _ _ List.nodup_nil
        (List.nodup_range _) (by simp) hloop
      refine ⟨by simp only [List.length_map]; omega, sel, hnd, ?_, rfl, ?_⟩
      · intro i hi
        rcases hmem i hi with h' | h'
        · exact absurd h' (List.not_mem_nil i)
        · exact List.mem_range.mp h'
      · intro hne j hj
        obtain ⟨b, hb1, hb2, hb3⟩ := mmrLoop_first _ _ _ _ _ _ _ hloop hne
        have hbhead : sel.head hne = b := by
          have := List.head?_eq_head hne
          rw [this] at hb1
          injection hb1
        rw [hbhead]
        have := hb3 j (List.mem_range.mpr hj)
        rw [getD_map_rawQSim, getD_map_rawQSim] at this
        nlinarith [this]

/-- Witness for `c5_mmr_retrieval_properties`: one concrete candidate,
identity square root, constant embeddings; the reranker returns exactly
that candidate and every stated property is discharged at it. -/
theorem c5_mmr_retrieval_properties_witness :
    (mmr_rerank (fun x => x) (fun _ => [[1]]) [1] [['a']] [({} : MetaR)] {}
        (7 / 10) 1 = some [(['a'], ({} : MetaR))]) ∧
    ([(['a'], ({} : MetaR))].length ≤ 1 ∧
      ∃ sel : List Nat, sel.Nodup ∧ (∀ i ∈ sel, i < [['a']].length) ∧
        [(['a'], ({} : MetaR))] =
          sel.map (fun i => ([['a']].getD i [], [({} : MetaR)].getD i {})) ∧
        ∀ hne : sel ≠ [], ∀ j, j < [['a']].length →
          rawQSim (fun x => x) [1] (((fun _ => [[1]]) [['a']]).getD j []) ≤
            rawQSim (fun x => x) [1]
              (((fun _ => [[1]]) [['a']]).getD (sel.head hne) [])) := by
  have heval : mmr_rerank (fun x => x) (fun _ => [[1]]) [1] [['a']] [({} : MetaR)] {}
      (7 / 10) 1 = some [(['a'], ({} : MetaR))] := by
    norm_num [mmr_rerank, mmrLoop, pickBest, bestStep, mmrScore, maxD, rawQSim,
      cosine_similarity, dotQ, sumSq, orOne, List.range_succ]
  exact ⟨heval,
    (c5_mmr_retrieval_properties (fun x => x) (fun _ => [[1]]) [1] [['a']]
      [({} : MetaR)] {} 1 (fun _ _ _ => ([], [], [])) [] none).2.1
      [(['a'], ({} : MetaR))] heval⟩

theorem groupTexts_ne_nil (vsq : List Char → Nat → Option (List String) → List Ctx)
    (chunksOf : String → List ChunkT) (items : List ItemT) (query : List Char)
    (k : Nat) (g : GroupT) (h : ∃ iid ∈ gIds items g, chunksOf iid ≠ []) :
    groupTexts vsq chunksOf items query k g ≠ [] := by
  obtain ⟨iid, hmem, hch⟩ := h
  have hids : gIds items g ≠ [] := fun hn => by
    rw [hn] at hmem
    exact (List.not_mem_nil _) hmem
  have htake : (chunksOf iid).take 8 ≠ [] := by
    cases hcc : chunksOf iid with
    | nil => exact absurd hcc hch
    | cons a l => simp [List.take]
  unfold groupTexts
  by_cases hp : gPicked vsq items query k g = []
  · rw [if_pos ⟨hp, hids⟩]
    intro hcontra
    simp only [List.append_eq_nil] at hcontra
    have := List.filterMap_eq_nil_iff.mp hcontra.1.2 iid hmem
    rw [if_neg htake] at this
    exact absurd this (by simp)
  · rw [if_neg (fun hand => hp hand.1)]
    intro hcontra
    simp only [List.append_eq_nil, List.map_eq_nil_iff] at hcontra
    exact hp hcontra.1.2

/-- C8 — amended.  If the canonicalized query mentions exactly two of the
board's groups and each mentioned group has a member item **with at least
one stored chunk**, the assembler produces exactly 2 labeled blocks, each
beginning with `"=== GROUP <name> ==="`, and performs exactly one
retrieval per group, restricted to that group's member item ids with
budget `k_each = max(4, top_k / 2)`.  (The chunk-bearing–member condition
is necessary: a mentioned group whose members have no chunks, whose
template is blank and whose retrieval comes back empty accumulates no
material and gets no block — see the counterexample.) -/
theorem c8_two_group_blocks (vsq : List Char → Nat → Option (List String) → List Ctx)
    (chunksOf : String → List ChunkT) (groups : List GroupT) (items : List ItemT)
    (query : List Char) (top_k : Nat) (g1 g2 : GroupT)
    (hm : groups.filter (mentionedB query) = [g1, g2])
    (h1 : ∃ iid ∈ gIds items g1, chunksOf iid ≠ [])
    (h2 : ∃ iid ∈ gIds items g2, chunksOf iid ≠ []) :
    (scopedBlocks vsq chunksOf groups items query top_k).1.length = 2 ∧
    (∃ r1, ((scopedBlocks vsq chunksOf groups items query top_k).1.getD 0 default).text =
      groupHeader g1.name ++ r1) ∧
    (∃ r2, ((scopedBlocks vsq chunksOf groups items query top_k).1.getD 1 default).text =
      groupHeader g2.name ++ r2) ∧
    (scopedBlocks vsq chunksOf groups items query top_k).2 =
      [(query, max 4 (top_k / 2), some (gIds items g1)),
       (query, max 4 (top_k / 2), some (gIds items g2))] := by
  have hids1 : gIds items g1 ≠ [] := by
    obtain ⟨iid, hmem, _⟩ := h1
    exact fun hn => by rw [hn] at hmem; exact (List.not_mem_nil _) hmem
  have hids2 : gIds items g2 ≠ [] := by
    obtain ⟨iid, hmem, _⟩ := h2
    exact fun hn => by rw [hn] at hmem; exact (List.not_mem_nil _) hmem
  have hk : kEach top_k 2 = max 4 (top_k / 2) := by
    unfold kEach
    split <;> omega
  have hlen2 : ([g1, g2] : List GroupT).length = 2 := rfl
  have htx1 := groupTexts_ne_nil vsq chunksOf items query (max 4 (top_k / 2)) g1 h1
  have htx2 := groupTexts_ne_nil vsq chunksOf items query (max 4 (top_k / 2)) g2 h2
  have hb1 : groupBlockOpt vsq chunksOf items query (max 4 (top_k / 2)) g1 =
      some ⟨groupHeader g1.name ++ '\n' :: List.intercalate ['\n', '\n']
        (groupTexts vsq chunksOf items query (max 4 (top_k / 2)) g1),
        none, none, none⟩ := by
    unfold groupBlockOpt
    rw [if_pos htx1]
  have hb2 : groupBlockOpt vsq chunksOf items query (max 4 (top_k / 2)) g2 =
      some ⟨groupHeader g2.name ++ '\n' :: List.intercalate ['\n', '\n']
        (groupTexts vsq chunksOf items query (max 4 (top_k / 2)) g2),
        none, none, none⟩ := by
    unfold groupBlockOpt
    rw [if_pos htx2]
  unfold scopedBlocks
  rw [hm, if_neg (by simp), hlen2, hk]
  simp only [List.filterMap_cons, List.filterMap_nil, hb1, hb2, if_pos hids1,
    if_pos hids2]
  exact ⟨rfl, ⟨_, rfl⟩, ⟨_, rfl⟩, trivial⟩

/-- C8 — counterexample to the claim as stated: a query canonically
mentioning exactly two groups whose member items have no stored chunks,
with blank templates and an empty retrieval result, produces 0 labeled
blocks, not 2. -/
theorem c8_blocks_refuted :
    (([⟨"b", "aa".toList, []⟩, ⟨"b", "bb".toList, []⟩] : List GroupT).filter
        (mentionedB ("aa bb".toList)) =
      [⟨"b", "aa".toList, []⟩, ⟨"b", "bb".toList, []⟩]) ∧
    gIds [⟨"i1", "b", some ("aa".toList)⟩, ⟨"i2", "b", some ("bb".toList)⟩]
      ⟨"b", "aa".toList, []⟩ ≠ [] ∧
    gIds [⟨"i1", "b", some ("aa".toList)⟩, ⟨"i2", "b", some ("bb".toList)⟩]
      ⟨"b", "bb".toList, []⟩ ≠ [] ∧
    ¬ ((scopedBlocks (fun _ _ _ => []) (fun _ => [])
        [⟨"b", "aa".toList, []⟩, ⟨"b", "bb".toList, []⟩]
        [⟨"i1", "b", some ("aa".toList)⟩, ⟨"i2", "b", some ("bb".toList)⟩]
        ("aa bb".toList) 20).1.length = 2) := by
  decide

/-- Witness for `c8_two_group_blocks`: two groups with one chunk-bearing
member each, retrieval returning nothing. -/
theorem c8_two_group_blocks_witness :
    (([⟨"b", "aa".toList, ['t']⟩, ⟨"b", "bb".toList, []⟩] : List GroupT).filter
        (mentionedB ("aa bb".toList)) =
      [⟨"b", "aa".toList, ['t']⟩, ⟨"b", "bb".toList, []⟩]) ∧
    (∃ iid ∈ gIds [⟨"i1", "b", some ("aa".toList)⟩, ⟨"i2", "b", some ("bb".toList)⟩]
      ⟨"b", "aa".toList, ['t']⟩,
      (fun (_ : String) => [(⟨['x'], none, none⟩ : ChunkT)]) iid ≠ []) ∧
    (∃ iid ∈ gIds [⟨"i1", "b", some ("aa".toList)⟩, ⟨"i2", "b", some ("bb".toList)⟩]
      ⟨"b", "bb".toList, []⟩,
      (fun (_ : String) => [(⟨['x'], none, none⟩ : ChunkT)]) iid ≠ []) ∧
    ((scopedBlocks (fun _ _ _ => []) (fun _ => [(⟨['x'], none, none⟩ : ChunkT)])
        [⟨"b", "aa".toList, ['t']⟩, ⟨"b", "bb".toList, []⟩]
        [⟨"i1", "b", some ("aa".toList)⟩, ⟨"i2", "b", some ("bb".toList)⟩]
        ("aa bb".toList) 20).1.length = 2 ∧
      (∃ r1, ((scopedBlocks (fun _ _ _ => []) (fun _ => [(⟨['x'], none, none⟩ : ChunkT)])
          [⟨"b", "aa".toList, ['t']⟩, ⟨"b", "bb".toList, []⟩]
          [⟨"i1", "b", some ("aa".toList)⟩, ⟨"i2", "b", some ("bb".toList)⟩]
          ("aa bb".toList) 20).1.getD 0 default).text =
        groupHeader ("aa".toList) ++ r1) ∧
      (∃ r2, ((scopedBlocks (fun _ _ _ => []) (fun _ => [(⟨['x'], none, none⟩ : ChunkT)])
          [⟨"b", "aa".toList, ['t']⟩, ⟨"b", "bb".toList, []⟩]
          [⟨"i1", "b", some ("aa".toList)⟩, ⟨"i2", "b", some ("bb".toList)⟩]
          ("aa bb".toList) 20).1.getD 1 default).text =
        groupHeader ("bb".toList) ++ r2) ∧
      (scopedBlocks (fun _ _ _ => []) (fun _ => [(⟨['x'], none, none⟩ : ChunkT)])
          [⟨"b", "aa".toList, ['t']⟩, ⟨"b", "bb".toList, []⟩]
          [⟨"i1", "b", some ("aa".toList)⟩, ⟨"i2", "b", some ("bb".toList)⟩]
          ("aa bb".toList) 20).2 =
        [("aa bb".toList, max 4 (20 / 2),
          some (gIds [⟨"i1", "b", some ("aa".toList)⟩, ⟨"i2", "b", some ("bb".toList)⟩]
            ⟨"b", "aa".toList, ['t']⟩)),
         ("aa bb".toList, max 4 (20 / 2),
          some (gIds [⟨"i1", "b", some ("aa".toList)⟩, ⟨"i2", "b", some ("bb".toList)⟩]
            ⟨"b", "bb".toList, []⟩))]) :=
  ⟨by decide, by decide, by decide,
   c8_two_group_blocks (fun _ _ _ => []) (fun _ => [(⟨['x'], none, none⟩ : ChunkT)])
     [⟨"b", "aa".toList, ['t']⟩, ⟨"b", "bb".toList, []⟩]
     [⟨"i1", "b", some ("aa".toList)⟩, ⟨"i2", "b", some ("bb".toList)⟩]
     ("aa bb".toList) 20 ⟨"b", "aa".toList, ['t']⟩ ⟨"b", "bb".toList, []⟩
     (by decide) (by decide) (by decide)⟩

/-- C10 — confirmed.  When the chat query selects exactly one item, the
vector index is never queried (no `vs_query` calls, for any board
argument), the context handed to answer generation is the item's stored
chunks in persisted order with the owning group's description inserted in
front (when the item has a group whose board template is non-blank), and
the response exposes only the first 10 contexts. -/
theorem c10_single_item_shortcut (vsq : List Char → Nat → Option (List String) → List Ctx)
    (chatAnswerF : List Char → List Ctx → List Char)
    (chunksOf : String → List ChunkT) (groups : List GroupT) (items : List ItemT)
    (bid iid : String) (queryT : List Char) (top_k : Nat)
    (item : ItemT) (gname tmpl : List Char)
    (hbid : bid ≠ "")
    (hfind : items.find? (fun i => i.id == iid) = some item)
    (hgroup : item.metaGroup = some gname) (hgne : gname ≠ [])
    (htmpl : lookupTemplate (groups.filter (fun g => g.board_id == bid)) gname =
      some tmpl)
    (hne : pyStrip tmpl ≠ []) :
    (∀ (bopt : Option String) (topk' : Nat),
      (api_chat vsq chatAnswerF chunksOf groups items
        ⟨bopt, some [iid], queryT, topk'⟩).vsCalls = []) ∧
    (api_chat vsq chatAnswerF chunksOf groups items
        ⟨some bid, some [iid], queryT, top_k⟩).answerArgs =
      [(queryT,
        (⟨("Group ".toList) ++ gname ++ (" description: ".toList) ++ tmpl,
          none, none, none⟩ : Ctx) ::
        (chunksOf iid).map (fun c => ⟨c.text, some iid, c.start_s, c.end_s⟩))] ∧
    (api_chat vsq chatAnswerF chunksOf groups items
        ⟨some bid, some [iid], queryT, top_k⟩).contexts =
      ((⟨("Group ".toList) ++ gname ++ (" description: ".toList) ++ tmpl,
          none, none, none⟩ : Ctx) ::
        (chunksOf iid).map (fun c => ⟨c.text, some iid, c.start_s, c.end_s⟩)).take 10 := by
  have hdesc : descOpt groups items (some bid) iid =
      some ⟨("Group ".toList) ++ gname ++ (" description: ".toList) ++ tmpl,
        none, none, none⟩ := by
    simp [descOpt, boardOf, hbid, hfind, hgroup, htmpl, hgne, hne]
  have hctx : singleItemContexts chunksOf groups items (some bid) iid =
      (⟨("Group ".toList) ++ gname ++ (" description: ".toList) ++ tmpl,
        none, none, none⟩ : Ctx) ::
      (chunksOf iid).map (fun c => ⟨c.text, some iid, c.start_s, c.end_s⟩) := by
    unfold singleItemContexts
    rw [hdesc]
    rfl
  refine ⟨fun bopt topk' => rfl, ?_, ?_⟩
  · show [(queryT, singleItemContexts chunksOf groups items (some bid) iid)] = _
    rw [hctx]
  · show (singleItemContexts chunksOf groups items (some bid) iid).take 10 = _
    rw [hctx]

/-- Witness for `c10_single_item_shortcut` at a one-item, one-group store. -/
theorem c10_single_item_shortcut_witness :
    ("b" : String) ≠ "" ∧
    ([(⟨"i", "b", some ['g']⟩ : ItemT)].find? (fun i => i.id == "i") =
      some ⟨"i", "b", some ['g']⟩) ∧
    ((⟨"i", "b", some ['g']⟩ : ItemT).metaGroup = some ['g']) ∧
    (['g'] : List Char) ≠ [] ∧
    (lookupTemplate (([⟨"b", ['g'], ['t']⟩] : List GroupT).filter
        (fun g => g.board_id == "b")) ['g'] = some ['t']) ∧
    pyStrip ['t'] ≠ [] ∧
    ((∀ (bopt : Option String) (topk' : Nat),
      (api_chat (fun _ _ _ => []) (fun _ _ => ['a'])
        (fun _ => [⟨['x'], none, none⟩]) [⟨"b", ['g'], ['t']⟩] [⟨"i", "b", some ['g']⟩]
        ⟨bopt, some ["i"], ['q'], topk'⟩).vsCalls = []) ∧
    (api_chat (fun _ _ _ => []) (fun _ _ => ['a'])
        (fun _ => [⟨['x'], none, none⟩]) [⟨"b", ['g'], ['t']⟩] [⟨"i", "b", some ['g']⟩]
        ⟨some ("b"), some ["i"], ['q'], 20⟩).answerArgs =
      [(['q'],
        (⟨("Group ".toList) ++ ['g'] ++ (" description: ".toList) ++ ['t'],
          none, none, none⟩ : Ctx) ::
        ((fun (_ : String) => [(⟨['x'], none, none⟩ : ChunkT)]) "i").map
          (fun c => ⟨c.text, some ("i"), c.start_s, c.end_s⟩))] ∧
    (api_chat (fun _ _ _ => []) (fun _ _ => ['a'])
        (fun _ => [⟨['x'], none, none⟩]) [⟨"b", ['g'], ['t']⟩] [⟨"i", "b", some ['g']⟩]
        ⟨some ("b"), some ["i"], ['q'], 20⟩).contexts =
      ((⟨("Group ".toList) ++ ['g'] ++ (" description: ".toList) ++ ['t'],
          none, none, none⟩ : Ctx) ::
        ((fun (_ : String) => [(⟨['x'], none, none⟩ : ChunkT)]) "i").map
          (fun c => ⟨c.text, some ("i"), c.start_s, c.end_s⟩)).take 10) :=
  ⟨by decide, by decide, rfl, by decide, by decide, by decide,
   c10_single_item_shortcut (fun _ _ _ => []) (fun _ _ => ['a'])
     (fun _ => [⟨['x'], none, none⟩]) [⟨"b", ['g'], ['t']⟩] [⟨"i", "b", some ['g']⟩]
     "b" "i" ['q'] 20 ⟨"i", "b", some ['g']⟩ ['g'] ['t']
     (by decide) (by decide) rfl (by decide) (by decide) (by decide)⟩

theorem tier3_count (a1 a2 fb : Outcome) :
    (tier3 a1 a2 fb).2.1 = if attemptText a1 = [] then 2 else 1 := by
  cases a1 <;> cases a2 <;> cases fb <;>
    simp only [tier3, sttStep, fbStep, attemptText] <;>
    split_ifs <;> simp_all

theorem tier3_fallback (a1 a2 fb : Outcome) :
    (tier3 a1 a2 fb).2.2 = true ↔ attemptText a1 = [] ∧ attemptText a2 = [] := by
  cases a1 <;> cases a2 <;> cases fb <;>
    simp only [tier3, sttStep, fbStep, attemptText] <;>
    split_ifs <;> simp_all

theorem tier3_fail (a1 a2 fb : Outcome) (h1 : attemptText a1 = [])
    (h2 : attemptText a2 = []) (h3 : attemptText fb = []) :
    (tier3 a1 a2 fb).1 = .error
      (match lastPrimaryErr a1 a2 with
        | some e => AcqErr.stt e
        | none => AcqErr.sttGeneric) := by
  cases a1 <;> cases a2 <;> cases fb <;>
    simp only [attemptText] at h1 h2 h3 <;>
    simp [tier3, sttStep, fbStep, lastPrimaryErr, h1, h2, h3]

/-- C6 — confirmed.  In the third tier: the speech-to-text submission is
attempted at most twice with the primary model (once when the first
attempt yields text, twice otherwise); the fallback model is attempted
exactly when neither primary attempt produced text; when primary and
fallback all fail to produce text, the error raised is the last error
captured from the primary attempts, or the generic transcription failure
when no primary attempt raised; and an acquisition error can only arise
once the third tier has been reached — the first two tiers (whose joined
text was blank whenever an error surfaces) fall through silently. -/
theorem c6_stt_retry_and_error_policy (official : Except Nat (List Entry))
    (subs : Except Nat (List (List Char))) (unesc : List Char → List Char)
    (prep : Except Nat Bool) (a1 a2 fb : Outcome) :
    (acquire official subs unesc prep a1 a2 fb).2.primaryAttempts ≤ 2 ∧
    ((tier3 a1 a2 fb).2.1 = if attemptText a1 = [] then 2 else 1) ∧
    ((tier3 a1 a2 fb).2.2 = true ↔ attemptText a1 = [] ∧ attemptText a2 = []) ∧
    (attemptText a1 = [] → attemptText a2 = [] → attemptText fb = [] →
      (tier3 a1 a2 fb).1 = .error
        (match lastPrimaryErr a1 a2 with
          | some e => AcqErr.stt e
          | none => AcqErr.sttGeneric)) ∧
    (∀ err, (acquire official subs unesc prep a1 a2 fb).1 = .error err →
      (acquire official subs unesc prep a1 a2 fb).2.sttReached = true ∧
      pyStrip (tier1Text official) = [] ∧ pyStrip (tier2Text unesc subs) = []) := by
  refine ⟨?_, tier3_count a1 a2 fb, tier3_fallback a1 a2 fb, tier3_fail a1 a2 fb, ?_⟩
  · unfold acquire
    split_ifs
    · exact Nat.zero_le 2
    · exact Nat.zero_le 2
    · cases prep with
      | error e => exact Nat.zero_le 2
      | ok b =>
        cases b
        · exact Nat.zero_le 2
        · simp only []
          rw [tier3_count]
          split_ifs <;> omega
  · intro err
    unfold acquire
    split_ifs with h1 h2
    · intro hcontra
      exact absurd hcontra (by simp)
    · intro hcontra
      exact absurd hcontra (by simp)
    · cases prep with
      | error e =>
        intro _
        exact ⟨rfl, by simpa using h1, by simpa using h2⟩
      | ok b =>
        cases b <;>
          · intro _
            exact ⟨rfl, by simpa using h1, by simpa using h2⟩

/-- Witness for `c6_stt_retry_and_error_policy`: both tiers blank, audio
ready, both primary attempts and the fallback raise — the last primary
error (2) is re-raised after 2 primary attempts and one fallback try. -/
theorem c6_stt_retry_and_error_policy_witness :
    ((acquire (.error 0) (.error 0) (fun s => s) (.ok true)
      (.exn 1) (.exn 2) (.exn 3)).2.primaryAttempts ≤ 2) ∧
    ((tier3 (.exn 1) (.exn 2) (.exn 3)).2.1 = 2) ∧
    ((tier3 (.exn 1) (.exn 2) (.exn 3)).2.2 = true) ∧
    ((tier3 (.exn 1) (.exn 2) (.exn 3)).1 = .error (AcqErr.stt 2)) ∧
    ((acquire (.error 0) (.error 0) (fun s => s) (.ok true)
        (.exn 1) (.exn 2) (.exn 3)).2.sttReached = true ∧
      pyStrip (tier1Text (.error 0)) = [] ∧
      pyStrip (tier2Text (fun s => s) (.error 0)) = []) := by
  have h := c6_stt_retry_and_error_policy (.error 0) (.error 0) (fun s => s) (.ok true)
    (.exn 1) (.exn 2) (.exn 3)
  refine ⟨h.1, ?_, ?_, ?_, ?_⟩
  · rw [h.2.1]
    decide
  · rw [h.2.2.1]
    decide
  · rw [h.2.2.2.1 (by decide) (by decide) (by decide)]
    rfl
  · refine h.2.2.2.2 (AcqErr.stt 2) ?_
    rw [show (acquire (.error 0) (.error 0) (fun s => s) (.ok true)
      (.exn 1) (.exn 2) (.exn 3)).1 = (tier3 (.exn 1) (.exn 2) (.exn 3)).1 from rfl,
      tier3_fail (.exn 1) (.exn 2) (.exn 3) (by decide) (by decide) (by decide)]
    rfl

set_option maxRecDepth 4000 in
/-- C7 — confirmed.  When the official transcript provider raises and the
auto-subtitle tier delivers the VTT file with the single cue
`00:00:01.000 --> 00:00:03.000` / `Hello world`, acquisition returns
exactly one segment `(1.0, 3.0, "Hello world")` (cue times converted as
`hours*3600 + minutes*60 + seconds`) and the speech-to-text tier is never
reached (no primary attempt, no fallback, for any speech-to-text
outcomes).  The only assumption on the external `html.unescape` is that it
fixes the entity-free string `"Hello world"`. -/
theorem c7_official_error_vtt_fallback (unesc : List Char → List Char)
    (prep : Except Nat Bool) (a1 a2 fb : Outcome) (oe : Nat)
    (hu : unesc ("Hello world").toList = ("Hello world").toList) :
    acquire (.error oe) (.ok helloVtt) unesc prep a1 a2 fb =
      (.ok (("Hello world").toList, [⟨1, 3, ("Hello world").toList⟩]),
       ⟨false, 0, false⟩) := by
  have hclean : vttClean unesc (("Hello world").toList) = ("Hello world").toList := by
    unfold vttClean
    rw [show tag_sub (("Hello world").toList) = ("Hello world").toList from by decide, hu]
    decide
  have hps : pyStrip (("Hello world").toList) = ("Hello world").toList := by decide
  have stepA : vtt_to_segments unesc helloVtt =
      vttLoop unesc (some (toSecondsQ 0 0 1 0)) (some (toSecondsQ 0 0 3 0)) []
        [("Hello world").toList] := rfl
  have stepB : ∀ st en : ℚ,
      vttLoop unesc (some st) (some en) [] [("Hello world").toList] =
        [⟨st, en, ("Hello world").toList⟩] := by
    intro st en
    show (if vttClean unesc (pyStrip (("Hello world").toList)) ≠ [] then
        vttLoop unesc (some st) (some en)
          ([] ++ [vttClean unesc (pyStrip (("Hello world").toList))]) []
      else vttLoop unesc (some st) (some en) [] []) = _
    rw [hps, hclean, if_pos (by decide : ("Hello world").toList ≠ [])]
    show vttFlush unesc (some st) (some en) [("Hello world").toList] = _
    simp only [vttFlush]
    rw [if_pos (by decide : ([("Hello world").toList] : List (List Char)) ≠ []),
      show sjoin [("Hello world").toList] = ("Hello world").toList from rfl, hclean,
      if_pos (by decide : ("Hello world").toList ≠ [])]
    rfl
  have hseg : vtt_to_segments unesc helloVtt =
      [⟨toSecondsQ 0 0 1 0, toSecondsQ 0 0 3 0, ("Hello world").toList⟩] :=
    stepA.trans (stepB _ _)
  have htext : tier2Text unesc (.ok helloVtt) = ("Hello world").toList := by
    show sjoin ((vtt_to_segments unesc helloVtt).map Seg.text) = _
    rw [hseg]
    rfl
  have hsegs2 : tier2Segs unesc (.ok helloVtt) =
      [⟨toSecondsQ 0 0 1 0, toSecondsQ 0 0 3 0, ("Hello world").toList⟩] := by
    show vtt_to_segments unesc helloVtt = _
    exact hseg
  have ht1 : tier1Text (.error oe : Except Nat (List Entry)) = [] := rfl
  unfold acquire
  rw [ht1]
  rw [if_neg (by decide : ¬ pyStrip ([] : List Char) ≠ []),
    if_pos (by rw [htext]; decide : pyStrip (tier2Text unesc (.ok helloVtt)) ≠ [])]
  rw [htext, hsegs2]
  have h1 : toSecondsQ 0 0 1 0 = 1 := by norm_num [toSecondsQ]
  have h3 : toSecondsQ 0 0 3 0 = 3 := by norm_num [toSecondsQ]
  rw [h1, h3]

/-- Witness for `c7_official_error_vtt_fallback` with `unesc` the identity
function. -/
theorem c7_official_error_vtt_fallback_witness :
    ((fun s : List Char => s) (("Hello world").toList) = ("Hello world").toList) ∧
    acquire (.error 0) (.ok helloVtt) (fun s => s) (.ok true)
        (.exn 0) (.exn 0) (.exn 0) =
      (.ok (("Hello world").toList, [⟨1, 3, ("Hello world").toList⟩]),
       ⟨false, 0, false⟩) :=
  ⟨rfl, c7_official_error_vtt_fallback (fun s => s) (.ok true)
    (.exn 0) (.exn 0) (.exn 0) 0 rfl⟩

end PopDupe

